import Mathlib

/-!
FileLog and FileLogFactory (src/C++/FileLog.cpp)

A shallow embedding of the file-backed log and of its factory.

* Strings are Lean strings; `std::string::size()` is `String.length`.
* `Log*` values are addresses (`Ptr`, `0` is the null pointer).  The heap maps
  an address to the `FileLog` object living there; `new` places the object at
  an address handed out by the allocator, `delete` removes it.
* The file system is a map from file names to contents together with the
  outcome of opening an output stream at a name.
* `int` values (`m_globalLogCount`, the loop counter of `backup`) are unbounded
  integers.  The count changes by one per call and the loop counter exceeds the
  number of files by at most one (`least_backupFree_le_card`), so a 32-bit `int`
  overflows only after 2^31 - 1 acquisitions or with 2^31 - 1 files present;
  those ranges are outside what is modelled.
-/

namespace FIX

/-! ## External collaborators -/

/-- The exception type `ConfigError`, carrying its message. -/
structure ConfigError where
  what : String
deriving DecidableEq

/-- The session identity `SessionID`: the four string components that
`FileLog::generatePrefix` reads through `getBeginString`, `getSenderCompID`,
`getTargetCompID` and `getSessionQualifier`. -/
structure SessionID where
  beginString : String
  senderCompID : String
  targetCompID : String
  sessionQualifier : String
deriving DecidableEq

/-- Modelled from the spec: the settings store `Dictionary` (declared outside
FileLog.cpp), "key lookup with typed accessors and a key-present check".  `data`
is the raw key lookup and `convertBool` the reading of a raw value as a boolean
(`none` for a malformed value). -/
structure Dictionary where
  data : String → Option String
  convertBool : String → Option Bool

/-- Modelled from the spec: `Dictionary::has`, the key-present check. -/
def Dictionary.has (d : Dictionary) (key : String) : Bool :=
  (d.data key).isSome

/-- Modelled from the spec: `Dictionary::getString`; a missing setting is a
configuration error. -/
def Dictionary.getString (d : Dictionary) (key : String) : Except ConfigError String :=
  match d.data key with
  | some v => .ok v
  | none => .error ⟨key ++ " not defined"⟩

/-- Modelled from the spec: `Dictionary::getBool`; a missing or malformed
setting is a configuration error. -/
def Dictionary.getBool (d : Dictionary) (key : String) : Except ConfigError Bool :=
  match d.data key with
  | none => .error ⟨key ++ " not defined"⟩
  | some v =>
    match d.convertBool v with
    | some b => .ok b
    | none => .error ⟨"Illegal value " ++ v ++ " for " ++ key⟩

/-- Modelled from the spec: the settings provider `SessionSettings`, "queryable
globally or per session": `get` is `m_settings.get()` and `getFor s` is
`m_settings.get(s)`. -/
structure SessionSettings where
  get : Dictionary
  getFor : SessionID → Dictionary

/-- Modelled from the spec: the settings key "log path". -/
def FILE_LOG_PATH : String := "FileLogPath"

/-- Modelled from the spec: the settings key "log backup path". -/
def FILE_LOG_BACKUP_PATH : String := "FileLogBackupPath"

/-- Modelled from the spec: the settings key "log messages". -/
def FILE_LOG_LOG_MESSAGES : String := "FileLogLogMessages"

/-! ## File system -/

/-- The part of the file system the log touches: the regular files with their
contents, the directories made so far, and, for every name, whether opening an
output stream there succeeds. -/
structure FileSys where
  files : String → Option String
  dirs : String → Bool
  canOpen : String → Bool

/-- Modelled from the spec: `file_mkdir`, "ensure the directory exists"; its
result is not checked by the caller. -/
def file_mkdir (fs : FileSys) (path : String) : FileSys :=
  { fs with dirs := Function.update fs.dirs path true }

/-- Modelled from the spec: `file_appendpath`, "joining directory + prefix":
file names have the shape `<dir>/<prefix>.event.current.log`. -/
def file_appendpath (path file : String) : String :=
  path ++ "/" ++ file

/-- Modelled from the spec: the existence probe `file_fopen(name, "r")`; the
result says whether the returned `FILE*` is non-null. -/
def file_fopen (fs : FileSys) (name : String) : Bool :=
  (fs.files name).isSome

/-- Modelled from the spec: `file_rename`, the rename primitive.  The file at
`oldName` moves to `newName`, replacing what was there; nothing happens when
there is no file at `oldName`. -/
def file_rename (fs : FileSys) (oldName newName : String) : FileSys :=
  match fs.files oldName with
  | none => fs
  | some c =>
    if oldName = newName then fs
    else { fs with files := Function.update (Function.update fs.files oldName none) newName (some c) }

/-- `std::ofstream::open(name, ios::out | ios::app)`: the file is created empty
when absent and kept when present.  The first component is `is_open()`. -/
def openAppend (fs : FileSys) (name : String) : Bool × FileSys :=
  if fs.canOpen name then
    (true, { fs with files := Function.update fs.files name (some ((fs.files name).getD "")) })
  else (false, fs)

/-- `std::ofstream::open(name, ios::out | ios::trunc)`: the file is created or
emptied.  The first component is `is_open()`. -/
def openTrunc (fs : FileSys) (name : String) : Bool × FileSys :=
  if fs.canOpen name then
    (true, { fs with files := Function.update fs.files name (some "") })
  else (false, fs)

/-! ## FileLog -/

/-- The members of a `FileLog`.  A stream member holds whether it is open. -/
structure FileLog where
  m_messages : Bool
  m_event : Bool
  m_messagesFileName : String
  m_eventFileName : String
  m_fullPrefix : String
  m_fullBackupPrefix : String
  m_millisecondsInTimeStamp : Bool
  m_logMessages : Bool
deriving DecidableEq

/-- `FileLog::generatePrefix`. -/
def FileLog.generatePrefix (s : SessionID) : String :=
  let begin_ := s.beginString
  let sender := s.senderCompID
  let target := s.targetCompID
  let qualifier := s.sessionQualifier
  let pfx := begin_ ++ "-" ++ sender ++ "-" ++ target
  if qualifier.length ≠ 0 then pfx ++ ("-" ++ qualifier) else pfx

/-- `FileLog::init`, run by every constructor after the member initialisers
have set `m_millisecondsInTimeStamp` and `m_logMessages`.  The result is the
constructed object, or the `ConfigError` thrown, and the file system left
behind. -/
def FileLog.init (logMessages : Bool) (path backupPath pfx : String) (fs : FileSys) :
    Except ConfigError FileLog × FileSys :=
  let fs1 := file_mkdir fs path
  let fs2 := file_mkdir fs1 backupPath
  let path1 := if path.length = 0 then "." else path
  let backupPath1 := if backupPath.length = 0 then path1 else backupPath
  let fullPrefix := file_appendpath path1 (pfx ++ ".")
  let fullBackupPrefix := file_appendpath backupPath1 (pfx ++ ".")
  let messagesFileName := if logMessages then fullPrefix ++ "messages.current.log" else ""
  let m := if logMessages then openAppend fs2 messagesFileName else (false, fs2)
  if logMessages && !m.1 then
    (.error ⟨"Could not open messages file: " ++ messagesFileName⟩, m.2)
  else
    let eventFileName := fullPrefix ++ "event.current.log"
    let e := openAppend m.2 eventFileName
    if !e.1 then
      (.error ⟨"Could not open event file: " ++ eventFileName⟩, e.2)
    else
      (.ok { m_messages := m.1, m_event := e.1,
             m_messagesFileName := messagesFileName, m_eventFileName := eventFileName,
             m_fullPrefix := fullPrefix, m_fullBackupPrefix := fullBackupPrefix,
             m_millisecondsInTimeStamp := true, m_logMessages := logMessages }, e.2)

/-- The constructor `FileLog(path, logMessages)`. -/
def FileLog.ofPath (path : String) (logMessages : Bool) (fs : FileSys) :
    Except ConfigError FileLog × FileSys :=
  FileLog.init logMessages path path "GLOBAL" fs

/-- The constructor `FileLog(path, backupPath, logMessages)`. -/
def FileLog.ofPaths (path backupPath : String) (logMessages : Bool) (fs : FileSys) :
    Except ConfigError FileLog × FileSys :=
  FileLog.init logMessages path backupPath "GLOBAL" fs

/-- The constructor `FileLog(path, s, logMessages)`. -/
def FileLog.ofPathSession (path : String) (s : SessionID) (logMessages : Bool) (fs : FileSys) :
    Except ConfigError FileLog × FileSys :=
  FileLog.init logMessages path path (FileLog.generatePrefix s) fs

/-- The constructor `FileLog(path, backupPath, s, logMessages)`. -/
def FileLog.ofPathsSession (path backupPath : String) (s : SessionID) (logMessages : Bool)
    (fs : FileSys) : Except ConfigError FileLog × FileSys :=
  FileLog.init logMessages path backupPath (FileLog.generatePrefix s) fs

/-- The name `backup` builds in `messagesFileName` for counter value `i`. -/
def FileLog.backupMessagesName (log : FileLog) (i : Nat) : String :=
  log.m_fullBackupPrefix ++ "messages.backup." ++ Nat.repr i ++ ".log"

/-- The name `backup` builds in `eventFileName` for counter value `i`. -/
def FileLog.backupEventName (log : FileLog) (i : Nat) : String :=
  log.m_fullBackupPrefix ++ "event.backup." ++ Nat.repr i ++ ".log"

/-- The body of the `if` in the loop of `FileLog::backup`, reached with counter
value `i`: the current files are renamed to the names with index `i` (messages
first, only when message-logging is enabled), then the streams are opened again
in truncate mode at the current names. -/
def FileLog.rotate (log : FileLog) (fs : FileSys) (i : Nat) : FileLog × FileSys :=
  let fs1 := if log.m_logMessages then
               file_rename fs log.m_messagesFileName (log.backupMessagesName i)
             else fs
  let fs2 := file_rename fs1 log.m_eventFileName (log.backupEventName i)
  let m := if log.m_logMessages then openTrunc fs2 log.m_messagesFileName
           else (log.m_messages, fs2)
  let e := openTrunc m.2 log.m_eventFileName
  ({ log with m_messages := m.1, m_event := e.1 }, e.2)

/-- The `while( true )` loop of `FileLog::backup`, entered with counter `i0`
and allowed `fuel` iterations; `none` when they are used up.  The result
carries the counter value at which the files were renamed. -/
def FileLog.backupLoop (log : FileLog) (fs : FileSys) :
    Nat → Nat → Option (Nat × FileLog × FileSys)
  | 0, _ => none
  | fuel + 1, i0 =>
    let i := i0 + 1
    let messagesFileName := log.backupMessagesName i
    let eventFileName := log.backupEventName i
    let messagesLogFile := if log.m_logMessages then file_fopen fs messagesFileName else false
    let eventLogFile := file_fopen fs eventFileName
    if ((!log.m_logMessages) || !messagesLogFile) && !eventLogFile then
      some (i, log.rotate fs i)
    else
      FileLog.backupLoop log fs fuel i

/-- The streams of `log` closed, as by the first statements of
`FileLog::backup`: the message stream only when message-logging is enabled. -/
def FileLog.closed (log : FileLog) : FileLog :=
  let log1 := if log.m_logMessages then { log with m_messages := false } else log
  { log1 with m_event := false }

/-- `FileLog::backup`: both streams are closed, then the loop starts with
`i = 0`. -/
def FileLog.backup (fuel : Nat) (log : FileLog) (fs : FileSys) :
    Option (Nat × FileLog × FileSys) :=
  FileLog.backupLoop log.closed fs fuel 0

/-- The loop test of `FileLog::backup` in the words of the specification: the
event backup name with index `i` is absent and, when message-logging is
enabled, so is the messages backup name with index `i`. -/
def FileLog.backupFree (log : FileLog) (fs : FileSys) (i : Nat) : Prop :=
  fs.files (log.backupEventName i) = none ∧
  (log.m_logMessages = true → fs.files (log.backupMessagesName i) = none)

/-- The number a list of decimal digit characters stands for. -/
def digitsValue (l : List Char) : Nat :=
  l.foldl (fun acc c => acc * 10 + (c.toNat - 48)) 0

/-! ## FileLogFactory -/

/-- A `Log*` value: an address, `0` being the null pointer. -/
abbrev Ptr := Nat

/-- The members of a `FileLogFactory`. -/
structure FileLogFactory where
  m_path : String
  m_backupPath : String
  m_settings : SessionSettings
  m_globalLog : Ptr
  m_globalLogCount : Int

/-- The state a factory call runs in: the factory object, the heap of live
`FileLog` objects and the file system. -/
structure World where
  factory : FileLogFactory
  heap : Ptr → Option FileLog
  fs : FileSys

/-- Assignment to `m_globalLogCount`. -/
def World.setCount (w : World) (n : Int) : World :=
  { w with factory := { w.factory with m_globalLogCount := n } }

/-- Assignment to `m_globalLog`. -/
def World.setGlobalLog (w : World) (p : Ptr) : World :=
  { w with factory := { w.factory with m_globalLog := p } }

/-- The expression `new FileLog( ... )`: the constructor `ctor` runs; when it
throws, the storage is released and the exception leaves the expression,
otherwise the object lives at the address `a` the allocator handed out. -/
def World.new (w : World) (a : Ptr) (ctor : FileSys → Except ConfigError FileLog × FileSys) :
    Except ConfigError Ptr × World :=
  match ctor w.fs with
  | (.ok log, fs1) => (.ok a, { w with heap := Function.update w.heap a (some log), fs := fs1 })
  | (.error e, fs1) => (.error e, { w with fs := fs1 })

/-- The expression `delete pLog`: nothing for the null pointer, otherwise the
object is destroyed (its streams are closed) and leaves the heap. -/
def World.delete (w : World) (pLog : Ptr) : World :=
  if pLog = 0 then w else { w with heap := Function.update w.heap pLog none }

/-- The statements `bool logMessages = true; if (settings.has(FILE_LOG_LOG_MESSAGES))
logMessages = settings.getBool(FILE_LOG_LOG_MESSAGES);` of both `create` functions. -/
def readLogMessages (settings : Dictionary) : Except ConfigError Bool :=
  if settings.has FILE_LOG_LOG_MESSAGES then settings.getBool FILE_LOG_LOG_MESSAGES
  else .ok true

/-- The statements `backupPath = path; if( settings.has( FILE_LOG_BACKUP_PATH ) )
backupPath = settings.getString( FILE_LOG_BACKUP_PATH );` of both `create` functions. -/
def readBackupPath (settings : Dictionary) (path : String) : Except ConfigError String :=
  if settings.has FILE_LOG_BACKUP_PATH then settings.getString FILE_LOG_BACKUP_PATH
  else .ok path

/-- The `try` block of `FileLogFactory::create()`. -/
def FileLogFactory.createTry (a : Ptr) (w : World) : Except ConfigError Ptr × World :=
  let settings := w.factory.m_settings.get
  match readLogMessages settings with
  | .error e => (.error e, w)
  | .ok logMessages =>
    if w.factory.m_path.length ≠ 0 then
      w.new a (FileLog.ofPath w.factory.m_path logMessages)
    else
      match settings.getString FILE_LOG_PATH with
      | .error e => (.error e, w)
      | .ok path =>
        match readBackupPath settings path with
        | .error e => (.error e, w)
        | .ok backupPath =>
          match w.new a (FileLog.ofPaths path backupPath logMessages) with
          | (.ok p, w1) => (.ok p, w1.setGlobalLog p)
          | (.error e, w1) => (.error e, w1)

/-- `FileLogFactory::create()`.  `a` is the address the allocator hands out
should the call reach a `new` expression. -/
def FileLogFactory.create (a : Ptr) (w : World) : Except ConfigError Ptr × World :=
  let w1 := w.setCount (w.factory.m_globalLogCount + 1)
  if w1.factory.m_globalLogCount > 1 then (.ok w1.factory.m_globalLog, w1)
  else
    match FileLogFactory.createTry a w1 with
    | (.ok p, w2) => (.ok p, w2)
    | (.error e, w2) => (.error e, w2.setCount (w2.factory.m_globalLogCount - 1))

/-- `FileLogFactory::create( const SessionID& )`. -/
def FileLogFactory.createSession (s : SessionID) (a : Ptr) (w : World) :
    Except ConfigError Ptr × World :=
  let settings := w.factory.m_settings.getFor s
  match readLogMessages settings with
  | .error e => (.error e, w)
  | .ok logMessages =>
    if w.factory.m_path.length ≠ 0 ∧ w.factory.m_backupPath.length ≠ 0 then
      w.new a (FileLog.ofPathsSession w.factory.m_path w.factory.m_backupPath s logMessages)
    else if w.factory.m_path.length ≠ 0 then
      w.new a (FileLog.ofPathSession w.factory.m_path s logMessages)
    else
      match settings.getString FILE_LOG_PATH with
      | .error e => (.error e, w)
      | .ok path =>
        match readBackupPath settings path with
        | .error e => (.error e, w)
        | .ok backupPath =>
          w.new a (FileLog.ofPathsSession path backupPath s logMessages)

/-- `FileLogFactory::destroy`. -/
def FileLogFactory.destroy (pLog : Ptr) (w : World) : World :=
  if pLog = w.factory.m_globalLog then
    let w1 := w.setCount (w.factory.m_globalLogCount - 1)
    if w1.factory.m_globalLogCount = 0 then
      (w1.delete pLog).setCount 0
    else w1
  else
    w.delete pLog

/-- Modelled from the spec: the state a factory starts in (its constructors are
declared outside FileLog.cpp): the shared pointer is "null until first
acquired" and the count "starts at 0"; no `FileLog` object is alive. -/
def World.initial (path backupPath : String) (settings : SessionSettings) (fs : FileSys) : World :=
  { factory := { m_path := path, m_backupPath := backupPath, m_settings := settings,
                 m_globalLog := 0, m_globalLogCount := 0 },
    heap := fun _ => none,
    fs := fs }

/-! ## Writing, naming, call sequences -/

/-- The naming relation `FileLog::init` sets up between the members: the
current file names are the full prefix followed by the fixed suffixes. -/
def FileLog.Named (log : FileLog) : Prop :=
  log.m_eventFileName = log.m_fullPrefix ++ "event.current.log" ∧
  (log.m_logMessages = true →
    log.m_messagesFileName = log.m_fullPrefix ++ "messages.current.log")

/-- Appending `text` to the file at `name`, when there is one. -/
def FileSys.append (fs : FileSys) (name text : String) : FileSys :=
  match fs.files name with
  | some c => { fs with files := Function.update fs.files name (some (c ++ text)) }
  | none => fs

/-- Modelled from the spec: writing through the streams (the write operations
are declared outside FileLog.cpp): what is written lands at the end of the
current file of an open stream; the message stream is used only when
message-logging is enabled. -/
def FileLog.write (log : FileLog) (fs : FileSys) (eventText messagesText : String) : FileSys :=
  let fs1 := if log.m_logMessages && log.m_messages then
               fs.append log.m_messagesFileName messagesText else fs
  if log.m_event then fs1.append log.m_eventFileName eventText else fs1

/-- A call a client makes on the factory.  For the two `create` calls `a` is
the address the allocator hands out if the call reaches a `new` expression. -/
inductive Call where
  | create (a : Ptr)
  | createSession (s : SessionID) (a : Ptr)
  | destroy (pLog : Ptr)

/-- The factory together with its clients: `held` lists the values the `create`
calls have returned and that have not yet been passed to `destroy` (a value
returned twice is listed twice). -/
structure Client where
  world : World
  held : List Ptr

/-- One call.  The result is `none` when the call cannot happen: the allocator
never hands out the null address or the address of a live object, and a client
passes to `destroy` only a value it holds. -/
def Call.step (c : Call) (st : Client) : Option Client :=
  match c with
  | .create a =>
    if a = 0 ∨ (st.world.heap a).isSome then none
    else
      match FileLogFactory.create a st.world with
      | (.ok p, w) => some ⟨w, p :: st.held⟩
      | (.error _, w) => some ⟨w, st.held⟩
  | .createSession s a =>
    if a = 0 ∨ (st.world.heap a).isSome then none
    else
      match FileLogFactory.createSession s a st.world with
      | (.ok p, w) => some ⟨w, p :: st.held⟩
      | (.error _, w) => some ⟨w, st.held⟩
  | .destroy pLog =>
    if pLog ∈ st.held then some ⟨FileLogFactory.destroy pLog st.world, st.held.erase pLog⟩
    else none

/-- A sequence of calls, one after the other. -/
def run : List Call → Client → Option Client
  | [], st => some st
  | c :: cs, st => (c.step st).bind (run cs)

/-- The allocator does not hand the call the address stored in `m_globalLog`
(a `destroy` allocates nothing). -/
def Call.avoidsStored (c : Call) (st : Client) : Prop :=
  match c with
  | .create a => a ≠ st.world.factory.m_globalLog
  | .createSession _ a => a ≠ st.world.factory.m_globalLog
  | .destroy _ => True

/-- The states reached from the world `w0`, no client holding anything, by
calls that can happen and in which the allocator never hands out the address
stored in `m_globalLog`. -/
inductive ReachableWithoutReuse (w0 : World) : Client → Prop
  | start : ReachableWithoutReuse w0 ⟨w0, []⟩
  | call (c : Call) (st st1 : Client) :
      ReachableWithoutReuse w0 st → c.avoidsStored st → c.step st = some st1 →
      ReachableWithoutReuse w0 st1

/-- The relation between the count, the stored pointer, the heap and the values
the clients hold that the calls maintain as long as the stored address is not
handed out again: the stored pointer is held at most `m_globalLogCount` times,
a held value is null, the stored pointer or the address of a live object, and
any other value is held at most once. -/
def Client.Inv (st : Client) : Prop :=
  ((st.held.count st.world.factory.m_globalLog : Nat) : Int) ≤ st.world.factory.m_globalLogCount
  ∧ (∀ p ∈ st.held, p = 0 ∨ p = st.world.factory.m_globalLog ∨ (st.world.heap p).isSome = true)
  ∧ (∀ p, p ≠ 0 → p ≠ st.world.factory.m_globalLog → st.held.count p ≤ 1)

/-! ## Concrete inputs -/

/-- A file system without files in which every output stream can be opened. -/
def exampleFs : FileSys :=
  { files := fun _ => none, dirs := fun _ => false, canOpen := fun _ => true }

/-- A file system without files in which no output stream can be opened. -/
def readOnlyFs : FileSys :=
  { files := fun _ => none, dirs := fun _ => false, canOpen := fun _ => false }

/-- Settings whose only entry is the log path `logs`. -/
def exampleDictionary : Dictionary :=
  { data := fun k => if k = FILE_LOG_PATH then some "logs" else none,
    convertBool := fun v => if v = "Y" then some true else if v = "N" then some false else none }

/-- Settings without entries. -/
def emptyDictionary : Dictionary :=
  { data := fun _ => none,
    convertBool := fun v => if v = "Y" then some true else if v = "N" then some false else none }

/-- Settings with the log path `logs` and message-logging switched off (`N`). -/
def quietDictionary : Dictionary :=
  { data := fun k => if k = FILE_LOG_PATH then some "logs"
                     else if k = FILE_LOG_LOG_MESSAGES then some "N" else none,
    convertBool := fun v => if v = "Y" then some true else if v = "N" then some false else none }

/-- Settings whose message-logging entry `maybe` is not a boolean. -/
def malformedDictionary : Dictionary :=
  { data := fun k => if k = FILE_LOG_LOG_MESSAGES then some "maybe" else none,
    convertBool := fun v => if v = "Y" then some true else if v = "N" then some false else none }

/-- The settings provider answering every query with `quietDictionary`. -/
def quietSettings : SessionSettings :=
  { get := quietDictionary, getFor := fun _ => quietDictionary }

/-- The settings provider answering every query with `malformedDictionary`. -/
def malformedSettings : SessionSettings :=
  { get := malformedDictionary, getFor := fun _ => malformedDictionary }

/-- The settings provider answering every query with `exampleDictionary`. -/
def exampleSettings : SessionSettings :=
  { get := exampleDictionary, getFor := fun _ => exampleDictionary }

/-- The settings provider answering every query with `emptyDictionary`. -/
def emptySettings : SessionSettings :=
  { get := emptyDictionary, getFor := fun _ => emptyDictionary }

/-- The members of the log `FileLog("logs", true)` after construction. -/
def exampleLog : FileLog :=
  { m_messages := true, m_event := true,
    m_messagesFileName := "logs/GLOBAL.messages.current.log",
    m_eventFileName := "logs/GLOBAL.event.current.log",
    m_fullPrefix := "logs/GLOBAL.", m_fullBackupPrefix := "logs/GLOBAL.",
    m_millisecondsInTimeStamp := true, m_logMessages := true }

/-- A file system holding the current files of `exampleLog` and an event backup
file with index 1. -/
def backupFs : FileSys :=
  { files := fun n =>
      if n = "logs/GLOBAL.event.current.log" then some "event text"
      else if n = "logs/GLOBAL.messages.current.log" then some "message text"
      else if n = "logs/GLOBAL.event.backup.1.log" then some "old event text"
      else none,
    dirs := fun _ => false, canOpen := fun _ => true }

/-- A file system holding the current files of `exampleLog` and nothing else. -/
def currentFs : FileSys :=
  { files := fun n =>
      if n = "logs/GLOBAL.event.current.log" then some "event text"
      else if n = "logs/GLOBAL.messages.current.log" then some "message text"
      else none,
    dirs := fun _ => false, canOpen := fun _ => true }

/-- The session identity of the specification example. -/
def exampleSession : SessionID :=
  ⟨"FIX.4.2", "SENDER", "TARGET", ""⟩

/-! ## Strings -/

theorem length_eq_zero_iff (s : String) : s.length = 0 ↔ s = "" := by
  constructor
  · intro h
    apply String.ext
    exact List.length_eq_zero.mp h
  · rintro rfl
    rfl

theorem append_left_cancel (A X Y : String) (h : A ++ X = A ++ Y) : X = Y := by
  have h1 := congrArg String.data h
  simp only [String.data_append] at h1
  exact String.ext (List.append_cancel_left h1)

theorem append_right_cancel (X Y A : String) (h : X ++ A = Y ++ A) : X = Y := by
  have h1 := congrArg String.data h
  simp only [String.data_append] at h1
  exact String.ext (List.append_cancel_right h1)

/-! ## Decimal numerals -/

theorem digitChar_value : ∀ d, d < 10 → (Nat.digitChar d).toNat - 48 = d := by
  decide

theorem digitChar_ne_t : ∀ d, d < 10 → Nat.digitChar d ≠ 't' := by
  decide

theorem toDigitsCore_append (fuel : Nat) : ∀ (n : Nat) (ds : List Char),
    Nat.toDigitsCore 10 fuel n ds = Nat.toDigitsCore 10 fuel n [] ++ ds := by
  induction fuel with
  | zero => intro n ds; simp [Nat.toDigitsCore]
  | succ fuel ih =>
    intro n ds
    simp only [Nat.toDigitsCore]
    split
    · simp
    · rw [ih (n / 10) (Nat.digitChar (n % 10) :: ds), ih (n / 10) [Nat.digitChar (n % 10)]]
      simp

theorem digitsValue_snoc (l : List Char) (c : Char) :
    digitsValue (l ++ [c]) = digitsValue l * 10 + (c.toNat - 48) := by
  simp [digitsValue, List.foldl_append]

theorem digitsValue_toDigitsCore (fuel : Nat) : ∀ n, n < fuel →
    digitsValue (Nat.toDigitsCore 10 fuel n []) = n := by
  induction fuel with
  | zero => intro n h; omega
  | succ fuel ih =>
    intro n h
    simp only [Nat.toDigitsCore]
    split
    · have hlt : n < 10 := by omega
      have hmod : n % 10 = n := Nat.mod_eq_of_lt hlt
      rw [hmod]
      simp [digitsValue, digitChar_value n hlt]
    · rw [toDigitsCore_append, digitsValue_snoc, ih (n / 10) (by omega),
        digitChar_value _ (Nat.mod_lt _ (by decide))]
      omega

theorem toDigitsCore_mem (fuel : Nat) : ∀ (n : Nat) (c : Char),
    c ∈ Nat.toDigitsCore 10 fuel n [] → ∃ d, d < 10 ∧ c = Nat.digitChar d := by
  induction fuel with
  | zero => intro n c h; simp [Nat.toDigitsCore] at h
  | succ fuel ih =>
    intro n c h
    simp only [Nat.toDigitsCore] at h
    split at h
    · simp only [List.mem_singleton] at h
      exact ⟨n % 10, Nat.mod_lt _ (by decide), h⟩
    · rw [toDigitsCore_append] at h
      simp only [List.mem_append, List.mem_singleton] at h
      rcases h with h | h
      · exact ih _ _ h
      · exact ⟨n % 10, Nat.mod_lt _ (by decide), h⟩

theorem repr_injective (a b : Nat) (h : Nat.repr a = Nat.repr b) : a = b := by
  have h1 : Nat.toDigits 10 a = Nat.toDigits 10 b := by
    have h2 := congrArg String.data h
    simpa [Nat.repr, List.asString] using h2
  have ha := digitsValue_toDigitsCore (a + 1) a (by omega)
  have hb := digitsValue_toDigitsCore (b + 1) b (by omega)
  unfold Nat.toDigits at h1
  rw [h1] at ha
  omega

theorem repr_mem (n : Nat) (c : Char) (h : c ∈ (Nat.repr n).data) :
    ∃ d, d < 10 ∧ c = Nat.digitChar d := by
  have h1 : c ∈ Nat.toDigits 10 n := by simpa [Nat.repr, List.asString] using h
  exact toDigitsCore_mem _ _ _ h1

theorem current_ne_backup (A B : String) (i : Nat) :
    A ++ "current.log" ≠ B ++ "backup." ++ Nat.repr i ++ ".log" := by
  intro h
  have h1 := congrArg (fun s => s.data.reverse) h
  simp only [String.data_append, List.reverse_append] at h1
  have e1 : ("current.log" : String).data.reverse
      = ['g', 'o', 'l', '.', 't', 'n', 'e', 'r', 'r', 'u', 'c'] := rfl
  have e2 : (".log" : String).data.reverse = ['g', 'o', 'l', '.'] := rfl
  have e3 : ("backup." : String).data.reverse = ['.', 'p', 'u', 'k', 'c', 'a', 'b'] := rfl
  rw [e1, e2, e3] at h1
  simp only [List.cons_append, List.nil_append, List.cons.injEq, true_and] at h1
  cases hr : (Nat.repr i).data.reverse with
  | nil =>
    rw [hr] at h1
    simp at h1
  | cons c rest =>
    rw [hr] at h1
    simp only [List.cons_append, List.cons.injEq] at h1
    have hc : c ∈ (Nat.repr i).data := by
      have hc1 : c ∈ (Nat.repr i).data.reverse := by rw [hr]; simp
      simpa using hc1
    obtain ⟨d, hd, hcd⟩ := repr_mem _ _ hc
    exact digitChar_ne_t d hd (hcd ▸ h1.1.symm)

/-! ## generatePrefix -/

/-- C5: for every session identity, `generatePrefix` is `begin-sender-target`
when the qualifier is empty and `begin-sender-target-qualifier` otherwise; the
two identities of the specification give `FIX.4.2-SENDER-TARGET` and
`FIX.4.2-SENDER-TARGET-Q1`. -/
theorem generatePrefix_spec (begin_ sender target qualifier : String) :
    FileLog.generatePrefix ⟨begin_, sender, target, qualifier⟩ =
        (if qualifier = "" then begin_ ++ "-" ++ sender ++ "-" ++ target
         else begin_ ++ "-" ++ sender ++ "-" ++ target ++ "-" ++ qualifier)
      ∧ FileLog.generatePrefix ⟨"FIX.4.2", "SENDER", "TARGET", ""⟩ = "FIX.4.2-SENDER-TARGET"
      ∧ FileLog.generatePrefix ⟨"FIX.4.2", "SENDER", "TARGET", "Q1"⟩
          = "FIX.4.2-SENDER-TARGET-Q1" := by
  refine ⟨?_, by decide, by decide⟩
  unfold FileLog.generatePrefix
  by_cases h : qualifier = ""
  · subst h
    simp
  · have h1 : qualifier.length ≠ 0 := fun h0 => h ((length_eq_zero_iff _).mp h0)
    simp [h, h1, String.append_assoc]

/-! ## init: the directories of the two prefixes -/

theorem init_ok_members (logMessages : Bool) (path backupPath pfx : String) (fs : FileSys)
    (log : FileLog) (fs1 : FileSys)
    (h : FileLog.init logMessages path backupPath pfx fs = (.ok log, fs1)) :
    log.m_fullPrefix = file_appendpath (if path.length = 0 then "." else path) (pfx ++ ".")
    ∧ log.m_fullBackupPrefix =
        file_appendpath (if backupPath.length = 0 then (if path.length = 0 then "." else path)
                         else backupPath) (pfx ++ ".")
    ∧ log.m_eventFileName = log.m_fullPrefix ++ "event.current.log"
    ∧ log.m_messagesFileName =
        (if logMessages then log.m_fullPrefix ++ "messages.current.log" else "")
    ∧ log.m_logMessages = logMessages := by
  unfold FileLog.init at h
  cases logMessages
  · by_cases he : (openAppend (file_mkdir (file_mkdir fs path) backupPath)
        (file_appendpath (if path.length = 0 then "." else path) (pfx ++ ".")
          ++ "event.current.log")).1 = true
    · simp [he] at h
      obtain ⟨h1, -⟩ := h
      subst h1
      simp
    · simp [he] at h
  · by_cases hm : (openAppend (file_mkdir (file_mkdir fs path) backupPath)
        (file_appendpath (if path.length = 0 then "." else path) (pfx ++ ".")
          ++ "messages.current.log")).1 = true
    · by_cases he : (openAppend (openAppend (file_mkdir (file_mkdir fs path) backupPath)
          (file_appendpath (if path.length = 0 then "." else path) (pfx ++ ".")
            ++ "messages.current.log")).2
          (file_appendpath (if path.length = 0 then "." else path) (pfx ++ ".")
            ++ "event.current.log")).1 = true
      · simp [hm, he] at h
        obtain ⟨h1, -⟩ := h
        subst h1
        simp
      · simp [hm, he] at h
    · simp [hm] at h

/-- C7 (as stated, refuted): with primary path `logs` and an empty backup path
the full backup prefix is built from `logs`, not from the current working
directory `.`. -/
theorem init_backup_directory_counterexample :
    ∃ log fs1, FileLog.init true "logs" "" "GLOBAL" exampleFs = (.ok log, fs1)
      ∧ log.m_fullBackupPrefix = "logs/GLOBAL."
      ∧ log.m_fullBackupPrefix ≠ file_appendpath "." ("GLOBAL" ++ ".") := by
  refine ⟨_, _, rfl, ?_, ?_⟩ <;> decide

/-- C7 (amended): for every pair of paths given to a construction that
succeeds, the full primary prefix is built from `.` when the primary path is
empty and from the primary path otherwise; the full backup prefix is built from
the backup path when that is non-empty and otherwise from the directory used
for the primary prefix (the primary path, or `.` when that is empty too). -/
theorem init_directories (logMessages : Bool) (path backupPath pfx : String) (fs : FileSys)
    (log : FileLog) (fs1 : FileSys)
    (h : FileLog.init logMessages path backupPath pfx fs = (.ok log, fs1)) :
    log.m_fullPrefix = file_appendpath (if path = "" then "." else path) (pfx ++ ".")
    ∧ log.m_fullBackupPrefix =
        file_appendpath (if backupPath = "" then (if path = "" then "." else path)
                         else backupPath) (pfx ++ ".") := by
  obtain ⟨h1, h2, -⟩ := init_ok_members logMessages path backupPath pfx fs log fs1 h
  simp only [length_eq_zero_iff] at h1 h2
  exact ⟨h1, h2⟩

/-- Witness for C7 (amended): the construction with primary path `logs` and an empty
backup path succeeds, and both prefixes are built from `logs`. -/
theorem init_directories_witness :
    ∃ log fs1, FileLog.init true "logs" "" "GLOBAL" exampleFs = (.ok log, fs1)
      ∧ log.m_fullPrefix = file_appendpath (if "logs" = "" then "." else "logs") ("GLOBAL" ++ ".")
      ∧ log.m_fullBackupPrefix =
          file_appendpath (if "" = "" then (if "logs" = "" then "." else "logs") else "")
            ("GLOBAL" ++ ".") :=
  ⟨_, _, rfl, init_directories true "logs" "" "GLOBAL" exampleFs _ _ rfl⟩

/-! ## create( const SessionID& ): the constructor arguments -/

/-- Once the message-logging flag has been read as `logMessages`, `create(s)` is
the `new` expression on the constructor arguments chosen from the overrides and
the settings. -/
theorem createSession_of_flag (w : World) (s : SessionID) (a : Ptr) (logMessages : Bool)
    (hflag : readLogMessages (w.factory.m_settings.getFor s) = .ok logMessages) :
    (w.factory.m_path ≠ "" → w.factory.m_backupPath ≠ "" →
      FileLogFactory.createSession s a w =
        w.new a (FileLog.init logMessages w.factory.m_path w.factory.m_backupPath
                  (FileLog.generatePrefix s)))
    ∧ (w.factory.m_path ≠ "" → w.factory.m_backupPath = "" →
      FileLogFactory.createSession s a w =
        w.new a (FileLog.init logMessages w.factory.m_path w.factory.m_path
                  (FileLog.generatePrefix s)))
    ∧ (w.factory.m_path = "" → ∀ path,
      (w.factory.m_settings.getFor s).data FILE_LOG_PATH = some path →
      FileLogFactory.createSession s a w =
        w.new a (FileLog.init logMessages path
                  (((w.factory.m_settings.getFor s).data FILE_LOG_BACKUP_PATH).getD path)
                  (FileLog.generatePrefix s)))
    ∧ (w.factory.m_path = "" →
      (w.factory.m_settings.getFor s).has FILE_LOG_PATH = false →
      ∃ e, FileLogFactory.createSession s a w = (.error e, w)) := by
  refine ⟨?_, ?_, ?_, ?_⟩
  · intro hp hb
    have hp1 : w.factory.m_path.length ≠ 0 := fun h0 => hp ((length_eq_zero_iff _).mp h0)
    have hb1 : w.factory.m_backupPath.length ≠ 0 := fun h0 => hb ((length_eq_zero_iff _).mp h0)
    unfold FileLogFactory.createSession
    simp only [hflag]
    rw [if_pos ⟨hp1, hb1⟩]
    rfl
  · intro hp hb
    have hp1 : w.factory.m_path.length ≠ 0 := fun h0 => hp ((length_eq_zero_iff _).mp h0)
    have hb1 : ¬ (w.factory.m_path.length ≠ 0 ∧ w.factory.m_backupPath.length ≠ 0) := by
      rw [hb]
      intro h
      exact h.2 rfl
    unfold FileLogFactory.createSession
    simp only [hflag]
    rw [if_neg hb1, if_pos hp1]
    rfl
  · intro hp path hpath
    have hp1 : ¬ (w.factory.m_path.length ≠ 0) := by
      rw [hp]
      intro h
      exact h rfl
    have hb1 : ¬ (w.factory.m_path.length ≠ 0 ∧ w.factory.m_backupPath.length ≠ 0) :=
      fun h => hp1 h.1
    unfold FileLogFactory.createSession
    simp only [hflag]
    rw [if_neg hb1, if_neg hp1]
    cases hb : (w.factory.m_settings.getFor s).data FILE_LOG_BACKUP_PATH with
    | none =>
      simp only [readBackupPath, Dictionary.getString, Dictionary.has, hpath, hb, Option.isSome_none,
        Bool.false_eq_true, if_false, Option.getD_none]
      rfl
    | some b =>
      simp only [readBackupPath, Dictionary.getString, Dictionary.has, hpath, hb, Option.isSome_some,
        if_true, Option.getD_some]
      rfl
  · intro hp hpath
    have hp1 : ¬ (w.factory.m_path.length ≠ 0) := by
      rw [hp]
      intro h
      exact h rfl
    have hb1 : ¬ (w.factory.m_path.length ≠ 0 ∧ w.factory.m_backupPath.length ≠ 0) :=
      fun h => hp1 h.1
    have hnone : (w.factory.m_settings.getFor s).data FILE_LOG_PATH = none := by
      simpa [Dictionary.has] using hpath
    unfold FileLogFactory.createSession
    simp only [hflag]
    rw [if_neg hb1, if_neg hp1]
    simp [Dictionary.getString, hnone]

/-! ## create(): failure of the first construction -/

theorem new_error (w w1 : World) (a : Ptr)
    (ctor : FileSys → Except ConfigError FileLog × FileSys) (e : ConfigError)
    (h : w.new a ctor = (.error e, w1)) :
    w1.factory = w.factory ∧ w1.heap = w.heap := by
  unfold World.new at h
  split at h
  · simp at h
  · simp only [Prod.mk.injEq, Except.error.injEq] at h
    obtain ⟨-, h2⟩ := h
    subst h2
    exact ⟨rfl, rfl⟩

theorem new_ok (w w1 : World) (a p : Ptr)
    (ctor : FileSys → Except ConfigError FileLog × FileSys)
    (h : w.new a ctor = (.ok p, w1)) :
    p = a ∧ w1.factory = w.factory ∧ (w1.heap a).isSome
      ∧ ∀ q, q ≠ a → w1.heap q = w.heap q := by
  unfold World.new at h
  split at h
  · simp only [Prod.mk.injEq, Except.ok.injEq] at h
    obtain ⟨h1, h2⟩ := h
    subst h1 h2
    refine ⟨rfl, rfl, by simp, ?_⟩
    intro q hq
    simp [Function.update, hq]
  · simp at h

theorem createTry_error (a : Ptr) (w w1 : World) (e : ConfigError)
    (h : FileLogFactory.createTry a w = (.error e, w1)) :
    w1.factory = w.factory ∧ w1.heap = w.heap := by
  unfold FileLogFactory.createTry at h
  dsimp only at h
  cases hlm : readLogMessages w.factory.m_settings.get with
  | error e1 =>
    rw [hlm] at h
    simp only [Prod.mk.injEq, Except.error.injEq] at h
    obtain ⟨-, h2⟩ := h
    subst h2
    exact ⟨rfl, rfl⟩
  | ok logMessages =>
    rw [hlm] at h
    dsimp only at h
    by_cases hp : w.factory.m_path.length ≠ 0
    · rw [if_pos hp] at h
      exact new_error _ _ _ _ _ h
    · rw [if_neg hp] at h
      cases hpath : w.factory.m_settings.get.getString FILE_LOG_PATH with
      | error e1 =>
        rw [hpath] at h
        simp only [Prod.mk.injEq, Except.error.injEq] at h
        obtain ⟨-, h2⟩ := h
        subst h2
        exact ⟨rfl, rfl⟩
      | ok path =>
        rw [hpath] at h
        dsimp only at h
        cases hb : readBackupPath w.factory.m_settings.get path with
        | error e1 =>
          rw [hb] at h
          simp only [Prod.mk.injEq, Except.error.injEq] at h
          obtain ⟨-, h2⟩ := h
          subst h2
          exact ⟨rfl, rfl⟩
        | ok backupPath =>
          rw [hb] at h
          dsimp only at h
          rcases hnew : w.new a (FileLog.ofPaths path backupPath logMessages) with ⟨r, w2⟩
          rw [hnew] at h
          cases r with
          | error e1 =>
            simp only [Prod.mk.injEq, Except.error.injEq] at h
            obtain ⟨h1, h2⟩ := h
            subst h1 h2
            exact new_error _ _ _ _ _ hnew
          | ok p => simp at h

theorem create_of_count_zero (a : Ptr) (w : World) (h0 : w.factory.m_globalLogCount = 0) :
    FileLogFactory.create a w =
      match FileLogFactory.createTry a (w.setCount 1) with
      | (.ok p, w2) => (.ok p, w2)
      | (.error e, w2) => (.error e, w2.setCount (w2.factory.m_globalLogCount - 1)) := by
  unfold FileLogFactory.create
  simp [World.setCount, h0]

/-- C2: when the count is 0 and `create()` fails with a configuration error,
the error is the one thrown by the construction, the count, the stored pointer
(indeed the whole factory object) and the heap are as before the call, and a
later `create()` runs the construction again instead of returning the stored
pointer. -/
theorem create_failure_rolls_back (a : Ptr) (w w1 : World) (e : ConfigError)
    (h0 : w.factory.m_globalLogCount = 0)
    (hfail : FileLogFactory.create a w = (.error e, w1)) :
    (FileLogFactory.createTry a (w.setCount 1)).1 = .error e
    ∧ w1.factory.m_globalLogCount = w.factory.m_globalLogCount
    ∧ w1.factory.m_globalLog = w.factory.m_globalLog
    ∧ w1.factory = w.factory
    ∧ w1.heap = w.heap
    ∧ ∀ a2, FileLogFactory.create a2 w1 =
        match FileLogFactory.createTry a2 (w1.setCount 1) with
        | (.ok p, w2) => (.ok p, w2)
        | (.error e2, w2) => (.error e2, w2.setCount (w2.factory.m_globalLogCount - 1)) := by
  rw [create_of_count_zero a w h0] at hfail
  split at hfail
  · simp at hfail
  · rename_i e1 w2 htry
    simp only [Prod.mk.injEq, Except.error.injEq] at hfail
    obtain ⟨he, hw⟩ := hfail
    subst he
    obtain ⟨hf, hh⟩ := createTry_error _ _ _ _ htry
    have hfac : w1.factory = w.factory := by
      rw [← hw]
      cases w with
      | mk f hp fs =>
        cases f
        simp only [World.setCount] at hf h0 ⊢
        rw [hf]
        simp [h0]
    have hheap : w1.heap = w.heap := by
      rw [← hw]
      simpa [World.setCount] using hh
    refine ⟨by rw [htry], by rw [hfac], by rw [hfac], hfac, hheap, ?_⟩
    intro a2
    exact create_of_count_zero a2 w1 (by rw [hfac]; exact h0)

/-- Witness for C2: a first `create()` fails for want of the log path setting, and
one with the fixed path `logs` fails because the messages file cannot be opened;
both leave the count at 0. -/
theorem create_failure_rolls_back_witness :
    (World.initial "" "" emptySettings exampleFs).factory.m_globalLogCount = 0
    ∧ (FileLogFactory.create 1 (World.initial "" "" emptySettings exampleFs)).1
        = .error ⟨"FileLogPath not defined"⟩
    ∧ (FileLogFactory.create 1 (World.initial "" "" emptySettings exampleFs)).2.factory.m_globalLogCount
        = 0
    ∧ (FileLogFactory.create 1 (World.initial "" "" emptySettings exampleFs)).2.factory.m_globalLog
        = 0
    ∧ (FileLogFactory.create 1 (World.initial "logs" "logs" emptySettings readOnlyFs)).1
        = .error ⟨"Could not open messages file: logs/GLOBAL.messages.current.log"⟩
    ∧ (FileLogFactory.create 1
        (World.initial "logs" "logs" emptySettings readOnlyFs)).2.factory.m_globalLogCount = 0 :=
  ⟨rfl, rfl,
    (create_failure_rolls_back 1 (World.initial "" "" emptySettings exampleFs) _ _ rfl rfl).2.1,
    (create_failure_rolls_back 1 (World.initial "" "" emptySettings exampleFs) _ _ rfl rfl).2.2.1,
    rfl,
    (create_failure_rolls_back 1 (World.initial "logs" "logs" emptySettings readOnlyFs) _ _ rfl
      rfl).2.1⟩

/-! ## destroy -/

theorem destroy_globalLog (pLog : Ptr) (w : World) :
    (FileLogFactory.destroy pLog w).factory.m_globalLog = w.factory.m_globalLog := by
  unfold FileLogFactory.destroy
  split
  · dsimp only
    split
    · unfold World.delete
      split <;> rfl
    · rfl
  · unfold World.delete
    split <;> rfl

theorem destroy_other (pLog : Ptr) (w : World) (h : pLog ≠ w.factory.m_globalLog) :
    FileLogFactory.destroy pLog w = w.delete pLog := by
  unfold FileLogFactory.destroy
  rw [if_neg h]

theorem destroy_global_count (w : World) :
    (FileLogFactory.destroy w.factory.m_globalLog w).factory.m_globalLogCount
      = w.factory.m_globalLogCount - 1 := by
  unfold FileLogFactory.destroy
  rw [if_pos rfl]
  dsimp only
  split
  · rename_i h
    simp only [World.setCount] at h
    simp [World.setCount, h]
  · rfl

theorem destroy_global_heap_keep (w : World) (h : w.factory.m_globalLogCount - 1 ≠ 0) :
    (FileLogFactory.destroy w.factory.m_globalLog w).heap = w.heap := by
  unfold FileLogFactory.destroy
  rw [if_pos rfl]
  dsimp only
  rw [if_neg (by simpa [World.setCount] using h)]
  rfl

theorem destroy_global_heap_delete (w : World) (hnull : w.factory.m_globalLog ≠ 0)
    (h : w.factory.m_globalLogCount - 1 = 0) :
    (FileLogFactory.destroy w.factory.m_globalLog w).heap w.factory.m_globalLog = none := by
  unfold FileLogFactory.destroy
  rw [if_pos rfl]
  dsimp only
  rw [if_pos (by simpa [World.setCount] using h)]
  simp [World.setCount, World.delete, hnull]

theorem destroy_iterate (w : World) (k : Nat) (hk : (k : Int) < w.factory.m_globalLogCount) :
    ((FileLogFactory.destroy w.factory.m_globalLog)^[k] w).factory.m_globalLog
        = w.factory.m_globalLog
    ∧ ((FileLogFactory.destroy w.factory.m_globalLog)^[k] w).factory.m_globalLogCount
        = w.factory.m_globalLogCount - k
    ∧ ((FileLogFactory.destroy w.factory.m_globalLog)^[k] w).heap = w.heap := by
  induction k with
  | zero => simp
  | succ k ih =>
    obtain ⟨h1, h2, h3⟩ := ih (by push_cast at hk; omega)
    rw [Function.iterate_succ_apply']
    generalize (FileLogFactory.destroy w.factory.m_globalLog)^[k] w = wk at h1 h2 h3
    rw [← h1]
    refine ⟨?_, ?_, ?_⟩
    · rw [destroy_globalLog]
    · rw [destroy_global_count, h2]
      push_cast
      ring
    · rw [destroy_global_heap_keep wk (by rw [h2]; push_cast at hk; omega), h3]

theorem createTry_ok (a p : Ptr) (w w1 : World)
    (h : FileLogFactory.createTry a w = (.ok p, w1)) :
    p = a ∧ (w1.heap a).isSome ∧ w1.factory.m_globalLogCount = w.factory.m_globalLogCount := by
  unfold FileLogFactory.createTry at h
  dsimp only at h
  cases hlm : readLogMessages w.factory.m_settings.get with
  | error e1 =>
    rw [hlm] at h
    simp at h
  | ok logMessages =>
    rw [hlm] at h
    dsimp only at h
    by_cases hp : w.factory.m_path.length ≠ 0
    · rw [if_pos hp] at h
      obtain ⟨h1, h2, h3, -⟩ := new_ok _ _ _ _ _ h
      exact ⟨h1, h3, by rw [h2]⟩
    · rw [if_neg hp] at h
      cases hpath : w.factory.m_settings.get.getString FILE_LOG_PATH with
      | error e1 =>
        rw [hpath] at h
        simp at h
      | ok path =>
        rw [hpath] at h
        dsimp only at h
        cases hb : readBackupPath w.factory.m_settings.get path with
        | error e1 =>
          rw [hb] at h
          simp at h
        | ok backupPath =>
          rw [hb] at h
          dsimp only at h
          rcases hnew : w.new a (FileLog.ofPaths path backupPath logMessages) with ⟨r, w2⟩
          rw [hnew] at h
          cases r with
          | error e1 => simp at h
          | ok q =>
            simp only [Prod.mk.injEq, Except.ok.injEq] at h
            obtain ⟨h1, h2⟩ := h
            subst h1 h2
            obtain ⟨h1, h2, h3, -⟩ := new_ok _ _ _ _ _ hnew
            exact ⟨h1, by simpa [World.setGlobalLog] using h3,
              by simp [World.setGlobalLog, h2]⟩

/-- C8: in a state holding a live shared global instance with count `N ≥ 1`,
`destroy(log)` leaves no object at `log` exactly when `log` is not the shared
instance (the count is then unchanged) or it is and the decremented count is 0;
`N - 1` destroys of the shared instance leave it alive with count 1, the `N`-th
removes it with count 0, and the next `create()` runs the construction: when it
succeeds it returns the newly allocated object. -/
theorem destroy_deletes_iff (w : World) (log : Ptr) (N : Nat)
    (hheap0 : w.heap 0 = none)
    (hnull : w.factory.m_globalLog ≠ 0)
    (hlive : (w.heap w.factory.m_globalLog).isSome)
    (hN : 1 ≤ N) (hcount : w.factory.m_globalLogCount = N) :
    ((FileLogFactory.destroy log w).heap log = none ↔
        (log ≠ w.factory.m_globalLog ∨
          (log = w.factory.m_globalLog ∧ w.factory.m_globalLogCount - 1 = 0)))
    ∧ (log ≠ w.factory.m_globalLog →
        (FileLogFactory.destroy log w).factory.m_globalLogCount = w.factory.m_globalLogCount)
    ∧ ((FileLogFactory.destroy w.factory.m_globalLog)^[N - 1] w).factory.m_globalLogCount = 1
    ∧ ((FileLogFactory.destroy w.factory.m_globalLog)^[N - 1] w).heap w.factory.m_globalLog
        = w.heap w.factory.m_globalLog
    ∧ ((FileLogFactory.destroy w.factory.m_globalLog)^[N] w).factory.m_globalLogCount = 0
    ∧ ((FileLogFactory.destroy w.factory.m_globalLog)^[N] w).heap w.factory.m_globalLog = none
    ∧ (∀ a, FileLogFactory.create a ((FileLogFactory.destroy w.factory.m_globalLog)^[N] w) =
        match FileLogFactory.createTry a
            (((FileLogFactory.destroy w.factory.m_globalLog)^[N] w).setCount 1) with
        | (.ok p, w2) => (.ok p, w2)
        | (.error e, w2) => (.error e, w2.setCount (w2.factory.m_globalLogCount - 1)))
    ∧ (∀ a p w2,
        FileLogFactory.create a ((FileLogFactory.destroy w.factory.m_globalLog)^[N] w)
          = (.ok p, w2) →
        p = a ∧ (w2.heap a).isSome ∧ w2.factory.m_globalLogCount = 1) := by
  obtain ⟨i1, i2, i3⟩ := destroy_iterate w (N - 1) (by rw [hcount]; omega)
  have hlast : (FileLogFactory.destroy w.factory.m_globalLog)^[N] w
      = FileLogFactory.destroy w.factory.m_globalLog
          ((FileLogFactory.destroy w.factory.m_globalLog)^[N - 1] w) := by
    obtain ⟨k, rfl⟩ : ∃ k, N = k + 1 := ⟨N - 1, by omega⟩
    rw [Function.iterate_succ_apply']
    rfl
  have hc1 : ((FileLogFactory.destroy w.factory.m_globalLog)^[N - 1] w).factory.m_globalLogCount
      = 1 := by
    rw [i2, hcount]
    push_cast [hN]
    ring
  have hc0 : ((FileLogFactory.destroy w.factory.m_globalLog)^[N] w).factory.m_globalLogCount
      = 0 := by
    rw [hlast]
    generalize (FileLogFactory.destroy w.factory.m_globalLog)^[N - 1] w = wk at i1 hc1
    rw [← i1, destroy_global_count, hc1]
    rfl
  have hh0 : ((FileLogFactory.destroy w.factory.m_globalLog)^[N] w).heap w.factory.m_globalLog
      = none := by
    rw [hlast]
    generalize (FileLogFactory.destroy w.factory.m_globalLog)^[N - 1] w = wk at i1 hc1
    rw [← i1]
    exact destroy_global_heap_delete wk (by rw [i1]; exact hnull) (by rw [hc1]; rfl)
  refine ⟨?_, ?_, hc1, by rw [i3], hc0, hh0, ?_, ?_⟩
  · by_cases hl : log = w.factory.m_globalLog
    · subst hl
      by_cases hz : w.factory.m_globalLogCount - 1 = 0
      · simp [hz, destroy_global_heap_delete w hnull hz]
      · rw [destroy_global_heap_keep w hz]
        simp only [ne_eq, not_true_eq_false, hz, and_false, or_self, iff_false]
        intro hnone
        rw [hnone] at hlive
        simp at hlive
    · rw [destroy_other log w hl]
      simp only [ne_eq, hl, not_false_eq_true, false_and, or_false, iff_true]
      unfold World.delete
      split
      · rename_i h0
        rw [h0]
        exact hheap0
      · simp
  · intro hl
    rw [destroy_other log w hl]
    unfold World.delete
    split <;> rfl
  · intro a
    exact create_of_count_zero a _ hc0
  · intro a p w2 hcreate
    rw [create_of_count_zero a _ hc0] at hcreate
    split at hcreate
    · rename_i q w3 htry
      simp only [Prod.mk.injEq, Except.ok.injEq] at hcreate
      obtain ⟨h1, h2⟩ := hcreate
      subst h1 h2
      obtain ⟨t1, t2, t3⟩ := createTry_ok _ _ _ _ htry
      exact ⟨t1, t2, by rw [t3]; rfl⟩
    · simp at hcreate

/-- Witness for C8: after one `create()` the shared instance lives at address 1
with count 1, and `destroy` of it removes it. -/
theorem destroy_deletes_iff_witness :
    ((FileLogFactory.create 1 (World.initial "" "" exampleSettings exampleFs)).2.heap
        (FileLogFactory.create 1
          (World.initial "" "" exampleSettings exampleFs)).2.factory.m_globalLog).isSome
    ∧ (FileLogFactory.create 1
        (World.initial "" "" exampleSettings exampleFs)).2.factory.m_globalLogCount = 1
    ∧ ((FileLogFactory.destroy 1 (FileLogFactory.create 1
          (World.initial "" "" exampleSettings exampleFs)).2).heap 1 = none ↔
        (1 ≠ (FileLogFactory.create 1
            (World.initial "" "" exampleSettings exampleFs)).2.factory.m_globalLog ∨
          (1 = (FileLogFactory.create 1
              (World.initial "" "" exampleSettings exampleFs)).2.factory.m_globalLog ∧
            (FileLogFactory.create 1
              (World.initial "" "" exampleSettings exampleFs)).2.factory.m_globalLogCount - 1
              = 0))) :=
  ⟨rfl, rfl,
    (destroy_deletes_iff (FileLogFactory.create 1
        (World.initial "" "" exampleSettings exampleFs)).2 1 1 rfl (by decide) rfl (le_refl 1)
      rfl).1⟩

/-! ## The factory at concrete inputs -/

/-- C1 (code evaluated at the failing input): with the fixed primary path
`logs`, the first `create()` constructs the log at address 1 and returns it,
but does not store it; the second `create()` returns the stored pointer, which
is still null, while the count is 2 and the first object is alive. -/
theorem create_fixed_path_second_call :
    ∃ w1 w2,
      FileLogFactory.create 1 (World.initial "logs" "logs" emptySettings exampleFs) = (.ok 1, w1)
      ∧ FileLogFactory.create 2 w1 = (.ok 0, w2)
      ∧ w2.factory.m_globalLogCount = 2
      ∧ w2.factory.m_globalLog = 0
      ∧ (w2.heap 1).isSome = true :=
  ⟨_, _, rfl, rfl, rfl, rfl, rfl⟩

/-- C3 (code evaluated at the failing input): after `create()` and `destroy` of
the returned log the count is 0 and the object is gone, but the stored pointer
still holds its address 1. -/
theorem destroy_leaves_pointer :
    ∃ st,
      run [.create 1, .destroy 1] ⟨World.initial "" "" exampleSettings exampleFs, []⟩ = some st
      ∧ st.held = []
      ∧ st.world.factory.m_globalLogCount = 0
      ∧ st.world.heap 1 = none
      ∧ st.world.factory.m_globalLog = 1 :=
  ⟨_, rfl, rfl, rfl, rfl, rfl⟩

/-- C9 (code evaluated at the failing input): `create()`, `destroy`, then a
per-session `create(s)` whose object is allocated at the address just freed,
and `destroy` of that log: every `destroy` is given a held value, and the count
ends at -1 with the per-session object still alive. -/
theorem count_negative_after_reuse :
    ∃ st,
      run [.create 1, .destroy 1, .createSession exampleSession 1, .destroy 1]
        ⟨World.initial "" "" exampleSettings exampleFs, []⟩ = some st
      ∧ st.held = []
      ∧ st.world.factory.m_globalLogCount = -1
      ∧ (st.world.heap 1).isSome = true :=
  ⟨_, rfl, rfl, rfl, rfl⟩

/-! ## backup: file names -/

theorem backupEventName_injective (log : FileLog) (i j : Nat)
    (h : log.backupEventName i = log.backupEventName j) : i = j := by
  unfold FileLog.backupEventName at h
  have h1 := append_right_cancel _ _ _ h
  rw [String.append_assoc, String.append_assoc] at h1
  have h2 := append_left_cancel _ _ _ h1
  exact repr_injective i j (append_left_cancel _ _ _ h2)

theorem backupMessagesName_injective (log : FileLog) (i j : Nat)
    (h : log.backupMessagesName i = log.backupMessagesName j) : i = j := by
  unfold FileLog.backupMessagesName at h
  have h1 := append_right_cancel _ _ _ h
  rw [String.append_assoc, String.append_assoc] at h1
  have h2 := append_left_cancel _ _ _ h1
  exact repr_injective i j (append_left_cancel _ _ _ h2)

theorem backupEventName_ne_messages (log : FileLog) (i j : Nat) :
    log.backupEventName i ≠ log.backupMessagesName j := by
  intro h
  unfold FileLog.backupEventName FileLog.backupMessagesName at h
  simp only [String.append_assoc] at h
  have h1 := congrArg String.data (append_left_cancel _ _ _ h)
  simp at h1

theorem event_current_ne_backupEvent (log : FileLog) (i : Nat) :
    log.m_fullPrefix ++ "event.current.log" ≠ log.backupEventName i := by
  have h := current_ne_backup (log.m_fullPrefix ++ "event.") (log.m_fullBackupPrefix ++ "event.") i
  have e1 : log.m_fullPrefix ++ "event.current.log"
      = log.m_fullPrefix ++ "event." ++ "current.log" := by
    rw [String.append_assoc]; rfl
  have e2 : log.backupEventName i
      = log.m_fullBackupPrefix ++ "event." ++ "backup." ++ Nat.repr i ++ ".log" := by
    unfold FileLog.backupEventName
    rw [String.append_assoc log.m_fullBackupPrefix "event." "backup."]; rfl
  rw [e1, e2]
  exact h

theorem event_current_ne_backupMessages (log : FileLog) (i : Nat) :
    log.m_fullPrefix ++ "event.current.log" ≠ log.backupMessagesName i := by
  have h := current_ne_backup (log.m_fullPrefix ++ "event.")
    (log.m_fullBackupPrefix ++ "messages.") i
  have e1 : log.m_fullPrefix ++ "event.current.log"
      = log.m_fullPrefix ++ "event." ++ "current.log" := by
    rw [String.append_assoc]; rfl
  have e2 : log.backupMessagesName i
      = log.m_fullBackupPrefix ++ "messages." ++ "backup." ++ Nat.repr i ++ ".log" := by
    unfold FileLog.backupMessagesName
    rw [String.append_assoc log.m_fullBackupPrefix "messages." "backup."]; rfl
  rw [e1, e2]
  exact h

theorem messages_current_ne_backupEvent (log : FileLog) (i : Nat) :
    log.m_fullPrefix ++ "messages.current.log" ≠ log.backupEventName i := by
  have h := current_ne_backup (log.m_fullPrefix ++ "messages.")
    (log.m_fullBackupPrefix ++ "event.") i
  have e1 : log.m_fullPrefix ++ "messages.current.log"
      = log.m_fullPrefix ++ "messages." ++ "current.log" := by
    rw [String.append_assoc]; rfl
  have e2 : log.backupEventName i
      = log.m_fullBackupPrefix ++ "event." ++ "backup." ++ Nat.repr i ++ ".log" := by
    unfold FileLog.backupEventName
    rw [String.append_assoc log.m_fullBackupPrefix "event." "backup."]; rfl
  rw [e1, e2]
  exact h

theorem messages_current_ne_backupMessages (log : FileLog) (i : Nat) :
    log.m_fullPrefix ++ "messages.current.log" ≠ log.backupMessagesName i := by
  have h := current_ne_backup (log.m_fullPrefix ++ "messages.")
    (log.m_fullBackupPrefix ++ "messages.") i
  have e1 : log.m_fullPrefix ++ "messages.current.log"
      = log.m_fullPrefix ++ "messages." ++ "current.log" := by
    rw [String.append_assoc]; rfl
  have e2 : log.backupMessagesName i
      = log.m_fullBackupPrefix ++ "messages." ++ "backup." ++ Nat.repr i ++ ".log" := by
    unfold FileLog.backupMessagesName
    rw [String.append_assoc log.m_fullBackupPrefix "messages." "backup."]; rfl
  rw [e1, e2]
  exact h

theorem event_current_ne_messages_current (log : FileLog) :
    log.m_fullPrefix ++ "event.current.log" ≠ log.m_fullPrefix ++ "messages.current.log" := by
  intro h
  have h1 := congrArg String.data (append_left_cancel _ _ _ h)
  simp at h1

theorem init_named (logMessages : Bool) (path backupPath pfx : String) (fs : FileSys)
    (log : FileLog) (fs1 : FileSys)
    (h : FileLog.init logMessages path backupPath pfx fs = (.ok log, fs1)) : log.Named := by
  obtain ⟨-, -, h3, h4, h5⟩ := init_ok_members logMessages path backupPath pfx fs log fs1 h
  refine ⟨h3, ?_⟩
  intro hlm
  rw [h5] at hlm
  rw [h4, hlm]
  rfl

/-! ## backup: the loop -/

theorem closed_members (log : FileLog) :
    log.closed.m_logMessages = log.m_logMessages
    ∧ log.closed.m_fullPrefix = log.m_fullPrefix
    ∧ log.closed.m_fullBackupPrefix = log.m_fullBackupPrefix
    ∧ log.closed.m_eventFileName = log.m_eventFileName
    ∧ log.closed.m_messagesFileName = log.m_messagesFileName := by
  unfold FileLog.closed
  split <;> exact ⟨rfl, rfl, rfl, rfl, rfl⟩

theorem closed_backupEventName (log : FileLog) (i : Nat) :
    log.closed.backupEventName i = log.backupEventName i := by
  unfold FileLog.backupEventName
  rw [(closed_members log).2.2.1]

theorem closed_backupMessagesName (log : FileLog) (i : Nat) :
    log.closed.backupMessagesName i = log.backupMessagesName i := by
  unfold FileLog.backupMessagesName
  rw [(closed_members log).2.2.1]

theorem closed_backupFree (log : FileLog) (fs : FileSys) (i : Nat) :
    log.closed.backupFree fs i ↔ log.backupFree fs i := by
  unfold FileLog.backupFree
  rw [closed_backupEventName, closed_backupMessagesName, (closed_members log).1]

theorem closed_named (log : FileLog) (h : log.Named) : log.closed.Named := by
  obtain ⟨c1, c2, -, c4, c5⟩ := closed_members log
  unfold FileLog.Named
  rw [c1, c2, c4, c5]
  exact h

theorem backupLoop_test (log : FileLog) (fs : FileSys) (i : Nat) :
    (((!log.m_logMessages) ||
        !(if log.m_logMessages then file_fopen fs (log.backupMessagesName i) else false)) &&
      !(file_fopen fs (log.backupEventName i))) = true ↔ log.backupFree fs i := by
  unfold FileLog.backupFree file_fopen
  cases log.m_logMessages <;>
    cases fs.files (log.backupEventName i) <;>
    cases fs.files (log.backupMessagesName i) <;> simp

theorem backupLoop_found (log : FileLog) (fs : FileSys) (i : Nat) (hfree : log.backupFree fs i) :
    ∀ fuel i0, i0 < i → (∀ j, i0 < j → j < i → ¬ log.backupFree fs j) → i - i0 ≤ fuel →
      FileLog.backupLoop log fs fuel i0 = some (i, log.rotate fs i) := by
  intro fuel
  induction fuel with
  | zero => intro i0 h1 _ h3; omega
  | succ fuel ih =>
    intro i0 h1 hmin h3
    unfold FileLog.backupLoop
    dsimp only
    by_cases hi : i0 + 1 = i
    · subst hi
      rw [if_pos ((backupLoop_test log fs (i0 + 1)).mpr hfree)]
    · have hnot : ¬ log.backupFree fs (i0 + 1) := hmin (i0 + 1) (by omega) (by omega)
      rw [if_neg (fun h => hnot ((backupLoop_test log fs (i0 + 1)).mp h))]
      exact ih (i0 + 1) (by omega) (fun j hj1 hj2 => hmin j (by omega) hj2) (by omega)

theorem backupLoop_result (log : FileLog) (fs : FileSys) :
    ∀ fuel i0 r, FileLog.backupLoop log fs fuel i0 = some r →
      ∃ i, i0 < i ∧ log.backupFree fs i ∧ (∀ j, i0 < j → j < i → ¬ log.backupFree fs j)
        ∧ r = (i, log.rotate fs i) := by
  intro fuel
  induction fuel with
  | zero => intro i0 r h; simp [FileLog.backupLoop] at h
  | succ fuel ih =>
    intro i0 r h
    unfold FileLog.backupLoop at h
    dsimp only at h
    by_cases hfree : log.backupFree fs (i0 + 1)
    · rw [if_pos ((backupLoop_test log fs (i0 + 1)).mpr hfree)] at h
      refine ⟨i0 + 1, by omega, hfree, ?_, ?_⟩
      · intro j h1 h2; omega
      · exact (Option.some.inj h).symm
    · rw [if_neg (fun h => hfree ((backupLoop_test log fs (i0 + 1)).mp h))] at h
      obtain ⟨i, h1, h2, h3, h4⟩ := ih (i0 + 1) r h
      refine ⟨i, by omega, h2, ?_, h4⟩
      intro j hj1 hj2
      by_cases hj : j = i0 + 1
      · rw [hj]; exact hfree
      · exact h3 j (by omega) hj2

theorem exists_backupFree (log : FileLog) (fs : FileSys)
    (hfin : Set.Finite {n | (fs.files n).isSome = true}) :
    ∃ i, 1 ≤ i ∧ log.backupFree fs i := by
  have h1 : (Set.preimage log.backupEventName {n | (fs.files n).isSome = true}).Finite :=
    Set.Finite.preimage (fun a _ b _ hab => backupEventName_injective log a b hab) hfin
  have h2 : (Set.preimage log.backupMessagesName {n | (fs.files n).isSome = true}).Finite :=
    Set.Finite.preimage (fun a _ b _ hab => backupMessagesName_injective log a b hab) hfin
  have h3 := (h1.union h2).union (Set.finite_singleton 0)
  obtain ⟨i, hi⟩ := h3.exists_not_mem
  simp only [Set.mem_union, Set.mem_preimage, Set.mem_setOf_eq, Set.mem_singleton_iff,
    not_or, Bool.not_eq_true, Option.not_isSome, Option.isNone_iff_eq_none] at hi
  exact ⟨i, by omega, hi.1.1, fun _ => hi.1.2⟩

theorem exists_least_backupFree (log : FileLog) (fs : FileSys)
    (hfin : Set.Finite {n | (fs.files n).isSome = true}) :
    ∃ i, 1 ≤ i ∧ log.backupFree fs i ∧ ∀ j, 1 ≤ j → j < i → ¬ log.backupFree fs j := by
  classical
  have h := exists_backupFree log fs hfin
  refine ⟨Nat.find h, (Nat.find_spec h).1, (Nat.find_spec h).2, ?_⟩
  intro j hj hlt hfree
  exact Nat.find_min h hlt ⟨hj, hfree⟩

theorem least_backupFree_le_card (log : FileLog) (fs : FileSys)
    (hfin : Set.Finite {n | (fs.files n).isSome = true}) (i : Nat)
    (hmin : ∀ j, 1 ≤ j → j < i → ¬ log.backupFree fs j) :
    i ≤ hfin.toFinset.card + 1 := by
  classical
  have hcard : (Finset.Ico 1 i).card ≤ hfin.toFinset.card := by
    apply Finset.card_le_card_of_injOn
      (fun j => if (fs.files (log.backupEventName j)).isSome = true then log.backupEventName j
                else log.backupMessagesName j)
    · intro j hj
      obtain ⟨h1, h2⟩ := Finset.mem_Ico.mp hj
      have hnot := hmin j h1 h2
      rw [Set.Finite.mem_toFinset, Set.mem_setOf_eq]
      by_cases hE : (fs.files (log.backupEventName j)).isSome = true
      · rw [if_pos hE]
        exact hE
      · rw [if_neg hE]
        by_contra hM
        apply hnot
        constructor
        · simpa using hE
        · intro _
          simpa using hM
    · intro j _ k _ hjk
      dsimp only at hjk
      by_cases hE : (fs.files (log.backupEventName j)).isSome = true
      · by_cases hF : (fs.files (log.backupEventName k)).isSome = true
        · rw [if_pos hE, if_pos hF] at hjk
          exact backupEventName_injective log j k hjk
        · rw [if_pos hE, if_neg hF] at hjk
          exact absurd hjk (backupEventName_ne_messages log j k)
      · by_cases hF : (fs.files (log.backupEventName k)).isSome = true
        · rw [if_neg hE, if_pos hF] at hjk
          exact absurd hjk.symm (backupEventName_ne_messages log k j)
        · rw [if_neg hE, if_neg hF] at hjk
          exact backupMessagesName_injective log j k hjk
  rw [Nat.card_Ico] at hcard
  omega

theorem file_rename_other (fs : FileSys) (oldName newName name : String)
    (h1 : name ≠ oldName) (h2 : name ≠ newName) :
    (file_rename fs oldName newName).files name = fs.files name := by
  unfold file_rename
  split
  · rfl
  · split
    · rfl
    · simp [Function.update, h1, h2]

theorem file_rename_canOpen (fs : FileSys) (oldName newName : String) :
    (file_rename fs oldName newName).canOpen = fs.canOpen := by
  unfold file_rename
  split
  · rfl
  · split <;> rfl

theorem file_rename_new (fs : FileSys) (oldName newName c : String)
    (h1 : fs.files oldName = some c) (h2 : oldName ≠ newName) :
    (file_rename fs oldName newName).files newName = some c := by
  unfold file_rename
  rw [h1]
  simp [h2]

theorem file_rename_absent (fs : FileSys) (oldName newName name : String)
    (h1 : fs.files name = none) (h2 : name ≠ newName) :
    (file_rename fs oldName newName).files name = none := by
  unfold file_rename
  split
  · exact h1
  · split
    · exact h1
    · by_cases h3 : name = oldName
      · subst h3
        simp [Function.update, h2]
      · simp [Function.update, h2, h3, h1]

theorem openTrunc_other (fs : FileSys) (n name : String) (h : name ≠ n) :
    (openTrunc fs n).2.files name = fs.files name := by
  unfold openTrunc
  split
  · simp [Function.update, h]
  · rfl

theorem openTrunc_canOpen (fs : FileSys) (n : String) :
    (openTrunc fs n).2.canOpen = fs.canOpen := by
  unfold openTrunc
  split <;> rfl

theorem openTrunc_self (fs : FileSys) (n : String) (h : fs.canOpen n = true) :
    (openTrunc fs n).1 = true ∧ (openTrunc fs n).2.files n = some "" := by
  unfold openTrunc
  rw [if_pos h]
  simp

theorem rotate_false (log : FileLog) (fs : FileSys) (i : Nat) (hlm : log.m_logMessages = false) :
    (log.rotate fs i).2 =
      (openTrunc (file_rename fs log.m_eventFileName (log.backupEventName i))
        log.m_eventFileName).2 := by
  unfold FileLog.rotate
  simp [hlm]

theorem rotate_true (log : FileLog) (fs : FileSys) (i : Nat) (hlm : log.m_logMessages = true) :
    (log.rotate fs i).2 =
      (openTrunc (openTrunc (file_rename
          (file_rename fs log.m_messagesFileName (log.backupMessagesName i))
          log.m_eventFileName (log.backupEventName i)) log.m_messagesFileName).2
        log.m_eventFileName).2 := by
  unfold FileLog.rotate
  simp [hlm]

theorem rotate_frame (log : FileLog) (fs : FileSys) (i : Nat) (name : String)
    (h1 : name ≠ log.m_eventFileName) (h2 : name ≠ log.backupEventName i)
    (h3 : log.m_logMessages = true →
      name ≠ log.m_messagesFileName ∧ name ≠ log.backupMessagesName i) :
    (log.rotate fs i).2.files name = fs.files name := by
  cases hlm : log.m_logMessages with
  | false =>
    rw [rotate_false log fs i hlm, openTrunc_other _ _ _ h1, file_rename_other _ _ _ _ h1 h2]
  | true =>
    obtain ⟨h4, h5⟩ := h3 hlm
    rw [rotate_true log fs i hlm, openTrunc_other _ _ _ h1, openTrunc_other _ _ _ h4,
      file_rename_other _ _ _ _ h1 h2, file_rename_other _ _ _ _ h4 h5]

theorem rotate_canOpen (log : FileLog) (fs : FileSys) (i : Nat) :
    (log.rotate fs i).2.canOpen = fs.canOpen := by
  cases hlm : log.m_logMessages with
  | false =>
    rw [rotate_false log fs i hlm, openTrunc_canOpen, file_rename_canOpen]
  | true =>
    rw [rotate_true log fs i hlm, openTrunc_canOpen, openTrunc_canOpen, file_rename_canOpen,
      file_rename_canOpen]

/-- C4: in a file system with finitely many files, `backup()` has a result
once the fuel reaches some index `i`, every result it has is that one, and `i`
is the least index from 1 on at which the event backup name and, when
message-logging is enabled, the messages backup name are absent; `i` exceeds
the number of files by at most one (the `int` counter of the source stays in
range as long as fewer than 2^31 - 1 files exist).  The current files are
renamed to the names with index `i` (messages first, only when enabled) and
opened again; each rename target is absent when its rename happens, and for a
log named as `init` names it every backup file present before keeps its
content. -/
theorem backup_least_free_index (log : FileLog) (fs : FileSys)
    (hfin : Set.Finite {n | (fs.files n).isSome = true}) :
    ∃ i, 1 ≤ i ∧ log.backupFree fs i ∧ (∀ j, 1 ≤ j → j < i → ¬ log.backupFree fs j)
      ∧ i ≤ hfin.toFinset.card + 1
      ∧ (∀ fuel, i ≤ fuel → log.backup fuel fs = some (i, log.closed.rotate fs i))
      ∧ (∀ fuel r, log.backup fuel fs = some r → r = (i, log.closed.rotate fs i))
      ∧ (log.closed.rotate fs i).2 =
          (openTrunc
            (if log.m_logMessages then
              (openTrunc
                (file_rename
                  (file_rename fs log.m_messagesFileName (log.backupMessagesName i))
                  log.m_eventFileName (log.backupEventName i))
                log.m_messagesFileName).2
             else file_rename fs log.m_eventFileName (log.backupEventName i))
            log.m_eventFileName).2
      ∧ (log.m_logMessages = true → fs.files (log.backupMessagesName i) = none)
      ∧ (if log.m_logMessages then
           file_rename fs log.m_messagesFileName (log.backupMessagesName i)
         else fs).files (log.backupEventName i) = none
      ∧ (log.Named → ∀ j c,
          (fs.files (log.backupEventName j) = some c →
            (log.closed.rotate fs i).2.files (log.backupEventName j) = some c)
          ∧ (fs.files (log.backupMessagesName j) = some c →
            (log.closed.rotate fs i).2.files (log.backupMessagesName j) = some c)) := by
  obtain ⟨i, hi1, hfree, hmin⟩ := exists_least_backupFree log fs hfin
  obtain ⟨c1, c2, c3, c4, c5⟩ := closed_members log
  have hfreeC : log.closed.backupFree fs i := (closed_backupFree log fs i).mpr hfree
  have hminC : ∀ j, 0 < j → j < i → ¬ log.closed.backupFree fs j :=
    fun j h1 h2 h3 => hmin j h1 h2 ((closed_backupFree log fs j).mp h3)
  refine ⟨i, hi1, hfree, hmin, least_backupFree_le_card log fs hfin i hmin, ?_, ?_, ?_, hfree.2,
    ?_, ?_⟩
  · intro fuel hfuel
    exact backupLoop_found log.closed fs i hfreeC fuel 0 (by omega) hminC (by omega)
  · intro fuel r hr
    obtain ⟨k, hk1, hk2, hk3, hk4⟩ := backupLoop_result log.closed fs fuel 0 r hr
    have hik : k = i := by
      rcases Nat.lt_trichotomy k i with h | h | h
      · exact absurd hk2 (hminC k hk1 h)
      · exact h
      · exact absurd hfreeC (hk3 i (by omega) h)
    rw [hk4, hik]
  · cases hlm : log.m_logMessages with
    | false =>
      rw [rotate_false log.closed fs i (by rw [c1]; exact hlm), c4, closed_backupEventName]
      simp
    | true =>
      rw [rotate_true log.closed fs i (by rw [c1]; exact hlm), c4, c5, closed_backupEventName,
        closed_backupMessagesName]
      simp
  · cases hlm : log.m_logMessages with
    | false => simpa using hfree.1
    | true =>
      simp only [if_true]
      exact file_rename_absent _ _ _ _ hfree.1 (backupEventName_ne_messages log i i)
  · intro hnamed j c
    obtain ⟨n1, n2⟩ := hnamed
    constructor
    · intro hj
      rw [← hj]
      apply rotate_frame
      · rw [c4, n1]
        exact (event_current_ne_backupEvent log j).symm
      · rw [closed_backupEventName]
        intro heq
        rw [heq, hfree.1] at hj
        simp at hj
      · intro hlm
        rw [c1] at hlm
        rw [c5, n2 hlm, closed_backupMessagesName]
        refine ⟨(messages_current_ne_backupEvent log j).symm, ?_⟩
        exact backupEventName_ne_messages log j i
    · intro hj
      rw [← hj]
      apply rotate_frame
      · rw [c4, n1]
        exact (event_current_ne_backupMessages log j).symm
      · rw [closed_backupEventName]
        exact (backupEventName_ne_messages log i j).symm
      · intro hlm
        rw [c1] at hlm
        rw [c5, n2 hlm, closed_backupMessagesName]
        refine ⟨(messages_current_ne_backupMessages log j).symm, ?_⟩
        intro heq
        rw [heq, hfree.2 hlm] at hj
        simp at hj

theorem backupFs_finite : Set.Finite {n | (backupFs.files n).isSome = true} := by
  apply Set.Finite.subset (Set.toFinite {"logs/GLOBAL.event.current.log",
    "logs/GLOBAL.messages.current.log", "logs/GLOBAL.event.backup.1.log"})
  intro n hn
  simp only [Set.mem_setOf_eq, backupFs] at hn
  simp only [Set.mem_insert_iff, Set.mem_singleton_iff]
  by_contra hne
  push_neg at hne
  simp [hne.1, hne.2.1, hne.2.2] at hn

/-- Witness for C4: with an event backup file of index 1 present, `backup()` stops
at index 2. -/
theorem backup_least_free_index_witness :
    Set.Finite {n | (backupFs.files n).isSome = true}
    ∧ (∃ i, 1 ≤ i ∧ exampleLog.backupFree backupFs i
        ∧ (∀ j, 1 ≤ j → j < i → ¬ exampleLog.backupFree backupFs j)
        ∧ ∀ fuel, i ≤ fuel →
            exampleLog.backup fuel backupFs = some (i, exampleLog.closed.rotate backupFs i))
    ∧ (exampleLog.backup 2 backupFs).map (fun r => r.1) = some 2 :=
  ⟨backupFs_finite,
    (backup_least_free_index exampleLog backupFs backupFs_finite).imp
      (fun _ h => ⟨h.1, h.2.1, h.2.2.1, h.2.2.2.2.1⟩),
    rfl⟩

/-! ## backup: what one rotation leaves -/

theorem append_other (fs : FileSys) (name text n : String) (h : n ≠ name) :
    (fs.append name text).files n = fs.files n := by
  unfold FileSys.append
  split
  · simp [Function.update, h]
  · rfl

theorem append_self (fs : FileSys) (name text c : String) (h : fs.files name = some c) :
    (fs.append name text).files name = some (c ++ text) := by
  unfold FileSys.append
  rw [h]
  simp

theorem append_canOpen (fs : FileSys) (name text : String) :
    (fs.append name text).canOpen = fs.canOpen := by
  unfold FileSys.append
  split <;> rfl

theorem write_frame (log : FileLog) (fs : FileSys) (e m name : String)
    (h1 : name ≠ log.m_eventFileName)
    (h2 : log.m_logMessages = true → name ≠ log.m_messagesFileName) :
    (log.write fs e m).files name = fs.files name := by
  unfold FileLog.write
  dsimp only
  split
  · rw [append_other _ _ _ _ h1]
    split
    · rename_i h
      simp only [Bool.and_eq_true] at h
      rw [append_other _ _ _ _ (h2 h.1)]
    · rfl
  · split
    · rename_i h
      simp only [Bool.and_eq_true] at h
      rw [append_other _ _ _ _ (h2 h.1)]
    · rfl

theorem write_canOpen (log : FileLog) (fs : FileSys) (e m : String) :
    (log.write fs e m).canOpen = fs.canOpen := by
  unfold FileLog.write
  dsimp only
  split <;> split <;> simp [append_canOpen]

theorem write_event (log : FileLog) (fs : FileSys) (e m c : String)
    (hopen : log.m_event = true) (hev : fs.files log.m_eventFileName = some c)
    (hne : log.m_logMessages = true → log.m_eventFileName ≠ log.m_messagesFileName) :
    (log.write fs e m).files log.m_eventFileName = some (c ++ e) := by
  unfold FileLog.write
  dsimp only
  rw [if_pos hopen]
  apply append_self
  split
  · rename_i h
    simp only [Bool.and_eq_true] at h
    rw [append_other _ _ _ _ (hne h.1)]
    exact hev
  · exact hev

theorem write_messages (log : FileLog) (fs : FileSys) (e m c : String)
    (hlm : log.m_logMessages = true) (hopen : log.m_messages = true)
    (hmsg : fs.files log.m_messagesFileName = some c)
    (hne : log.m_messagesFileName ≠ log.m_eventFileName) :
    (log.write fs e m).files log.m_messagesFileName = some (c ++ m) := by
  unfold FileLog.write
  dsimp only
  have hc : (log.m_logMessages && log.m_messages) = true := by simp [hlm, hopen]
  rw [if_pos hc]
  split
  · rw [append_other _ _ _ _ hne]
    exact append_self _ _ _ _ hmsg
  · exact append_self _ _ _ _ hmsg

theorem named_ne (log : FileLog) (h : log.Named) (i : Nat) :
    log.m_eventFileName ≠ log.backupEventName i
    ∧ log.m_eventFileName ≠ log.backupMessagesName i
    ∧ (log.m_logMessages = true →
        log.m_messagesFileName ≠ log.backupEventName i
        ∧ log.m_messagesFileName ≠ log.backupMessagesName i
        ∧ log.m_eventFileName ≠ log.m_messagesFileName) := by
  obtain ⟨n1, n2⟩ := h
  refine ⟨?_, ?_, ?_⟩
  · rw [n1]; exact event_current_ne_backupEvent log i
  · rw [n1]; exact event_current_ne_backupMessages log i
  · intro hlm
    rw [n1, n2 hlm]
    exact ⟨messages_current_ne_backupEvent log i, messages_current_ne_backupMessages log i,
      event_current_ne_messages_current log⟩

theorem rotate_members (log : FileLog) (fs : FileSys) (i : Nat) :
    (log.rotate fs i).1.m_logMessages = log.m_logMessages
    ∧ (log.rotate fs i).1.m_fullPrefix = log.m_fullPrefix
    ∧ (log.rotate fs i).1.m_fullBackupPrefix = log.m_fullBackupPrefix
    ∧ (log.rotate fs i).1.m_eventFileName = log.m_eventFileName
    ∧ (log.rotate fs i).1.m_messagesFileName = log.m_messagesFileName :=
  ⟨rfl, rfl, rfl, rfl, rfl⟩

theorem rotate_values (log : FileLog) (fs : FileSys) (i : Nat) (e : String) (hn : log.Named)
    (hev : fs.files log.m_eventFileName = some e)
    (hcanE : fs.canOpen log.m_eventFileName = true)
    (hcanM : log.m_logMessages = true → fs.canOpen log.m_messagesFileName = true) :
    (log.rotate fs i).2.files log.m_eventFileName = some ""
    ∧ (log.rotate fs i).2.files (log.backupEventName i) = some e
    ∧ (log.rotate fs i).1.m_event = true
    ∧ (log.m_logMessages = true →
        (log.rotate fs i).1.m_messages = true
        ∧ (log.rotate fs i).2.files log.m_messagesFileName = some ""
        ∧ ∀ m, fs.files log.m_messagesFileName = some m →
            (log.rotate fs i).2.files (log.backupMessagesName i) = some m) := by
  obtain ⟨d1, d2, d3⟩ := named_ne log hn i
  cases hlm : log.m_logMessages with
  | false =>
    have hcan : (file_rename fs log.m_eventFileName (log.backupEventName i)).canOpen
        log.m_eventFileName = true := by
      rw [file_rename_canOpen]; exact hcanE
    refine ⟨?_, ?_, ?_, ?_⟩
    · rw [rotate_false log fs i hlm]
      exact (openTrunc_self _ _ hcan).2
    · rw [rotate_false log fs i hlm, openTrunc_other _ _ _ d1.symm]
      exact file_rename_new _ _ _ _ hev d1
    · unfold FileLog.rotate
      simp only [hlm, Bool.false_eq_true, if_false]
      exact (openTrunc_self _ _ hcan).1
    · intro h; simp at h
  | true =>
    obtain ⟨d4, d5, d6⟩ := d3 hlm
    have hcan1 : (file_rename (file_rename fs log.m_messagesFileName (log.backupMessagesName i))
        log.m_eventFileName (log.backupEventName i)).canOpen = fs.canOpen := by
      rw [file_rename_canOpen, file_rename_canOpen]
    have hcanM1 : (file_rename (file_rename fs log.m_messagesFileName
        (log.backupMessagesName i)) log.m_eventFileName (log.backupEventName i)).canOpen
        log.m_messagesFileName = true := by
      rw [hcan1]; exact hcanM hlm
    have hcanE1 : (openTrunc (file_rename (file_rename fs log.m_messagesFileName
        (log.backupMessagesName i)) log.m_eventFileName (log.backupEventName i))
        log.m_messagesFileName).2.canOpen log.m_eventFileName = true := by
      rw [openTrunc_canOpen, hcan1]; exact hcanE
    have hev1 : (file_rename fs log.m_messagesFileName (log.backupMessagesName i)).files
        log.m_eventFileName = some e := by
      rw [file_rename_other _ _ _ _ d6 d2]; exact hev
    refine ⟨?_, ?_, ?_, ?_⟩
    · rw [rotate_true log fs i hlm]
      exact (openTrunc_self _ _ hcanE1).2
    · rw [rotate_true log fs i hlm, openTrunc_other _ _ _ d1.symm, openTrunc_other _ _ _ d4.symm]
      exact file_rename_new _ _ _ _ hev1 d1
    · unfold FileLog.rotate
      simp only [hlm, if_true]
      exact (openTrunc_self _ _ hcanE1).1
    · intro _
      refine ⟨?_, ?_, ?_⟩
      · unfold FileLog.rotate
        simp only [hlm, if_true]
        exact (openTrunc_self _ _ hcanM1).1
      · rw [rotate_true log fs i hlm, openTrunc_other _ _ _ d6.symm]
        exact (openTrunc_self _ _ hcanM1).2
      · intro m hm
        rw [rotate_true log fs i hlm, openTrunc_other _ _ _ d2.symm,
          openTrunc_other _ _ _ d5.symm,
          file_rename_other _ _ _ _ d2.symm (backupEventName_ne_messages log i i).symm]
        exact file_rename_new _ _ _ _ hm d5

theorem backup_step (log : FileLog) (fs : FileSys) (i fuel : Nat) (e : String)
    (hn : log.Named) (hi : 1 ≤ i) (hfuel : i ≤ fuel)
    (hfree : log.backupFree fs i) (hmin : ∀ j, 1 ≤ j → j < i → ¬ log.backupFree fs j)
    (hev : fs.files log.m_eventFileName = some e)
    (hcanE : fs.canOpen log.m_eventFileName = true)
    (hcanM : log.m_logMessages = true → fs.canOpen log.m_messagesFileName = true) :
    ∃ log1 fs1, log.backup fuel fs = some (i, log1, fs1)
      ∧ (log1.m_logMessages = log.m_logMessages
        ∧ log1.m_fullPrefix = log.m_fullPrefix
        ∧ log1.m_fullBackupPrefix = log.m_fullBackupPrefix
        ∧ log1.m_eventFileName = log.m_eventFileName
        ∧ log1.m_messagesFileName = log.m_messagesFileName)
      ∧ log1.m_event = true
      ∧ fs1.canOpen = fs.canOpen
      ∧ fs1.files log.m_eventFileName = some ""
      ∧ fs1.files (log.backupEventName i) = some e
      ∧ (log.m_logMessages = true →
          log1.m_messages = true
          ∧ fs1.files log.m_messagesFileName = some ""
          ∧ ∀ m, fs.files log.m_messagesFileName = some m →
              fs1.files (log.backupMessagesName i) = some m)
      ∧ (∀ name, name ≠ log.m_eventFileName → name ≠ log.backupEventName i →
          (log.m_logMessages = true →
            name ≠ log.m_messagesFileName ∧ name ≠ log.backupMessagesName i) →
          fs1.files name = fs.files name) := by
  obtain ⟨c1, c2, c3, c4, c5⟩ := closed_members log
  obtain ⟨r1, r2, r3, r4, r5⟩ := rotate_members log.closed fs i
  have hfreeC : log.closed.backupFree fs i := (closed_backupFree log fs i).mpr hfree
  have hminC : ∀ j, 0 < j → j < i → ¬ log.closed.backupFree fs j :=
    fun j h1 h2 h3 => hmin j h1 h2 ((closed_backupFree log fs j).mp h3)
  have hrun : log.backup fuel fs = some (i, log.closed.rotate fs i) :=
    backupLoop_found log.closed fs i hfreeC fuel 0 (by omega) hminC (by omega)
  obtain ⟨v1, v2, v3, v4⟩ := rotate_values log.closed fs i e (closed_named log hn)
    (by rw [c4]; exact hev) (by rw [c4]; exact hcanE)
    (by intro h; rw [c5]; rw [c1] at h; exact hcanM h)
  rw [c4] at v1
  rw [closed_backupEventName] at v2
  rw [c1, c5, closed_backupMessagesName] at v4
  refine ⟨(log.closed.rotate fs i).1, (log.closed.rotate fs i).2, hrun,
    ⟨by rw [r1, c1], by rw [r2, c2], by rw [r3, c3], by rw [r4, c4], by rw [r5, c5]⟩,
    v3, rotate_canOpen _ _ _, v1, v2, v4, ?_⟩
  intro name h1 h2 h3
  apply rotate_frame
  · rw [c4]; exact h1
  · rw [closed_backupEventName]; exact h2
  · intro h
    rw [c1] at h
    rw [c5, closed_backupMessagesName]
    exact h3 h

theorem backupEventName_congr (a b : FileLog) (h : a.m_fullBackupPrefix = b.m_fullBackupPrefix)
    (i : Nat) : a.backupEventName i = b.backupEventName i := by
  unfold FileLog.backupEventName
  rw [h]

theorem backupMessagesName_congr (a b : FileLog)
    (h : a.m_fullBackupPrefix = b.m_fullBackupPrefix) (i : Nat) :
    a.backupMessagesName i = b.backupMessagesName i := by
  unfold FileLog.backupMessagesName
  rw [h]

theorem empty_append (s : String) : "" ++ s = s := by
  apply String.ext
  simp

/-- C10: for a log named as `init` names it, whose current files exist and can
be opened again and for whose prefix no backup file exists, two `backup()`
calls with writes in between end at indices 1 and 2: afterwards the event
backup files are exactly those numbered 1 and 2, holding the content current
before the first call and the content written between the calls (the same for
the message backup files when message-logging is enabled, none otherwise), and
right after each call the current event file (and the current message file when
enabled) exists and is empty. -/
theorem backup_twice (log : FileLog) (fs : FileSys) (fuel : Nat) (e1 m1 e2 m2 : String)
    (hn : log.Named) (hfuel : 2 ≤ fuel)
    (hnone : ∀ i, fs.files (log.backupEventName i) = none
      ∧ fs.files (log.backupMessagesName i) = none)
    (hev : fs.files log.m_eventFileName = some e1)
    (hmsg : log.m_logMessages = true → fs.files log.m_messagesFileName = some m1)
    (hcanE : fs.canOpen log.m_eventFileName = true)
    (hcanM : log.m_logMessages = true → fs.canOpen log.m_messagesFileName = true) :
    ∃ log1 fs1 log2 fs3,
      log.backup fuel fs = some (1, log1, fs1)
      ∧ fs1.files log.m_eventFileName = some ""
      ∧ (log.m_logMessages = true → fs1.files log.m_messagesFileName = some "")
      ∧ log1.backup fuel (log1.write fs1 e2 m2) = some (2, log2, fs3)
      ∧ fs3.files log.m_eventFileName = some ""
      ∧ (log.m_logMessages = true → fs3.files log.m_messagesFileName = some "")
      ∧ fs3.files (log.backupEventName 1) = some e1
      ∧ fs3.files (log.backupEventName 2) = some e2
      ∧ (∀ i, (fs3.files (log.backupEventName i)).isSome = true ↔ (i = 1 ∨ i = 2))
      ∧ (log.m_logMessages = true →
          fs3.files (log.backupMessagesName 1) = some m1
          ∧ fs3.files (log.backupMessagesName 2) = some m2)
      ∧ (∀ i, (fs3.files (log.backupMessagesName i)).isSome = true ↔
          (log.m_logMessages = true ∧ (i = 1 ∨ i = 2))) := by
  -- names of the log are pairwise different
  have dE : ∀ i, log.m_eventFileName ≠ log.backupEventName i := fun i => (named_ne log hn i).1
  have dEM : ∀ i, log.m_eventFileName ≠ log.backupMessagesName i :=
    fun i => (named_ne log hn i).2.1
  have dM : log.m_logMessages = true → ∀ i,
      log.m_messagesFileName ≠ log.backupEventName i
      ∧ log.m_messagesFileName ≠ log.backupMessagesName i
      ∧ log.m_eventFileName ≠ log.m_messagesFileName :=
    fun h i => (named_ne log hn i).2.2 h
  have dBB : ∀ i j, log.backupEventName i ≠ log.backupMessagesName j :=
    backupEventName_ne_messages log
  have iE : ∀ i j, i ≠ j → log.backupEventName i ≠ log.backupEventName j :=
    fun i j hij h => hij (backupEventName_injective log i j h)
  have iM : ∀ i j, i ≠ j → log.backupMessagesName i ≠ log.backupMessagesName j :=
    fun i j hij h => hij (backupMessagesName_injective log i j h)
  -- the first call
  obtain ⟨log1, fs1, hrun1, ⟨a1, a2, a3, a4, a5⟩, hopen1, hcan1, hcur1, hb1, hmsg1, hframe1⟩ :=
    backup_step log fs 1 fuel e1 hn (le_refl 1) (by omega)
      ⟨(hnone 1).1, fun _ => (hnone 1).2⟩ (fun j h1 h2 => by omega) hev hcanE hcanM
  have hn1 : log1.Named := by
    unfold FileLog.Named
    rw [a1, a2, a4, a5]
    exact hn
  have nE : ∀ i, log1.backupEventName i = log.backupEventName i :=
    backupEventName_congr log1 log a3
  have nM : ∀ i, log1.backupMessagesName i = log.backupMessagesName i :=
    backupMessagesName_congr log1 log a3
  -- the writes between the calls
  have hw_frame : ∀ name, name ≠ log.m_eventFileName →
      (log.m_logMessages = true → name ≠ log.m_messagesFileName) →
      (log1.write fs1 e2 m2).files name = fs1.files name := by
    intro name h1 h2
    apply write_frame
    · rw [a4]; exact h1
    · intro h
      rw [a1] at h
      rw [a5]
      exact h2 h
  have hw_event : (log1.write fs1 e2 m2).files log.m_eventFileName = some e2 := by
    have h := write_event log1 fs1 e2 m2 "" hopen1 (by rw [a4]; exact hcur1)
      (by intro h; rw [a1] at h; rw [a4, a5]; exact (dM h 1).2.2)
    rw [a4, empty_append] at h
    exact h
  have hw_messages : log.m_logMessages = true →
      (log1.write fs1 e2 m2).files log.m_messagesFileName = some m2 := by
    intro hlm
    have h := write_messages log1 fs1 e2 m2 "" (by rw [a1]; exact hlm) (hmsg1 hlm).1
      (by rw [a5]; exact (hmsg1 hlm).2.1) (by rw [a4, a5]; exact (dM hlm 1).2.2.symm)
    rw [a5, empty_append] at h
    exact h
  have hw_b1 : (log1.write fs1 e2 m2).files (log.backupEventName 1) = some e1 := by
    rw [hw_frame _ (dE 1).symm (fun h => (dM h 1).1.symm)]
    exact hb1
  have hw_none : ∀ i, i ≠ 1 → (log1.write fs1 e2 m2).files (log.backupEventName i) = none
      ∧ (log1.write fs1 e2 m2).files (log.backupMessagesName i) = none := by
    intro i hi
    constructor
    · rw [hw_frame _ (dE i).symm (fun h => (dM h i).1.symm),
        hframe1 _ (dE i).symm (iE i 1 hi) (fun h => ⟨(dM h i).1.symm, dBB i 1⟩)]
      exact (hnone i).1
    · rw [hw_frame _ (dEM i).symm (fun h => (dM h i).2.1.symm),
        hframe1 _ (dEM i).symm (dBB 1 i).symm (fun h => ⟨(dM h i).2.1.symm, iM i 1 hi⟩)]
      exact (hnone i).2
  -- the second call
  obtain ⟨log2, fs3, hrun2, -, -, -, hcur3, hb2, hmsg3, hframe3⟩ :=
    backup_step log1 (log1.write fs1 e2 m2) 2 fuel e2 hn1 (by omega) hfuel
      ⟨by rw [nE]; exact (hw_none 2 (by omega)).1,
        fun _ => by rw [nM]; exact (hw_none 2 (by omega)).2⟩
      (fun j h1 h2 hfree => by
        have hj : j = 1 := by omega
        subst hj
        have h := hfree.1
        rw [nE, hw_b1] at h
        simp at h)
      (by rw [a4]; exact hw_event)
      (by rw [write_canOpen, hcan1, a4]; exact hcanE)
      (by intro h; rw [a1] at h; rw [write_canOpen, hcan1, a5]; exact hcanM h)
  rw [a4] at hcur3
  rw [nE] at hb2
  rw [a1, a5, nM] at hmsg3
  have hframe : ∀ name, name ≠ log.m_eventFileName → name ≠ log.backupEventName 2 →
      (log.m_logMessages = true →
        name ≠ log.m_messagesFileName ∧ name ≠ log.backupMessagesName 2) →
      fs3.files name = (log1.write fs1 e2 m2).files name := by
    intro name h1 h2 h3
    apply hframe3
    · rw [a4]; exact h1
    · rw [nE]; exact h2
    · intro h
      rw [a1] at h
      rw [a5, nM]
      exact h3 h
  have hE1 : fs3.files (log.backupEventName 1) = some e1 := by
    rw [hframe _ (dE 1).symm (iE 1 2 (by omega)) (fun h => ⟨(dM h 1).1.symm, dBB 1 2⟩)]
    exact hw_b1
  have hEother : ∀ i, i ≠ 1 → i ≠ 2 → fs3.files (log.backupEventName i) = none := by
    intro i h1 h2
    rw [hframe _ (dE i).symm (iE i 2 h2) (fun h => ⟨(dM h i).1.symm, dBB i 2⟩)]
    exact (hw_none i h1).1
  have hM1 : log.m_logMessages = true → fs3.files (log.backupMessagesName 1) = some m1 := by
    intro hlm
    rw [hframe _ (dEM 1).symm (dBB 2 1).symm
        (fun h => ⟨(dM h 1).2.1.symm, iM 1 2 (by omega)⟩),
      hw_frame _ (dEM 1).symm (fun h => (dM h 1).2.1.symm)]
    exact (hmsg1 hlm).2.2 m1 (hmsg hlm)
  have hMother : ∀ i, i ≠ 1 → (log.m_logMessages = true → i ≠ 2) →
      fs3.files (log.backupMessagesName i) = none := by
    intro i h1 h2
    rw [hframe _ (dEM i).symm (dBB 2 i).symm
        (fun h => ⟨(dM h i).2.1.symm, iM i 2 (h2 h)⟩)]
    exact (hw_none i h1).2
  have hM1off : log.m_logMessages = false → fs3.files (log.backupMessagesName 1) = none := by
    intro hlm
    rw [hframe _ (dEM 1).symm (dBB 2 1).symm (fun h => by rw [hlm] at h; simp at h),
      hw_frame _ (dEM 1).symm (fun h => by rw [hlm] at h; simp at h),
      hframe1 _ (dEM 1).symm (dBB 1 1).symm (fun h => by rw [hlm] at h; simp at h)]
    exact (hnone 1).2
  refine ⟨log1, fs1, log2, fs3, hrun1, hcur1, fun h => (hmsg1 h).2.1, hrun2, hcur3,
    fun h => (hmsg3 h).2.1, hE1, hb2, ?_, fun h => ⟨hM1 h, (hmsg3 h).2.2 m2 (hw_messages h)⟩, ?_⟩
  · intro i
    by_cases h1 : i = 1
    · subst h1; simp [hE1]
    · by_cases h2 : i = 2
      · subst h2; simp [hb2]
      · simp [hEother i h1 h2, h1, h2]
  · intro i
    cases hlm : log.m_logMessages with
    | false =>
      by_cases h1 : i = 1
      · subst h1; simp [hM1off hlm]
      · simp [hMother i h1 (fun h => by rw [hlm] at h; simp at h)]
    | true =>
      by_cases h1 : i = 1
      · subst h1; simp [hM1 hlm]
      · by_cases h2 : i = 2
        · subst h2; simp [(hmsg3 hlm).2.2 m2 (hw_messages hlm)]
        · simp [hMother i h1 (fun _ => h2), h1, h2]

theorem exampleLog_constructed :
    (FileLog.ofPath "logs" true exampleFs).1 = .ok exampleLog := rfl

theorem exampleLog_named : exampleLog.Named :=
  ⟨by decide, fun _ => by decide⟩

theorem currentFs_no_backup (i : Nat) :
    currentFs.files (exampleLog.backupEventName i) = none
    ∧ currentFs.files (exampleLog.backupMessagesName i) = none := by
  obtain ⟨h1, h2, h3⟩ := named_ne exampleLog exampleLog_named i
  obtain ⟨h4, h5, -⟩ := h3 rfl
  have e1 : exampleLog.m_eventFileName = "logs/GLOBAL.event.current.log" := rfl
  have e2 : exampleLog.m_messagesFileName = "logs/GLOBAL.messages.current.log" := rfl
  rw [e1] at h1 h2
  rw [e2] at h4 h5
  simp only [currentFs]
  constructor
  · rw [if_neg h1.symm, if_neg h4.symm]
  · rw [if_neg h2.symm, if_neg h5.symm]

/-- Witness for C10: two `backup()` calls on `exampleLog`, starting from its two
current files, leave the event backup files 1 and 2 with the two contents. -/
theorem backup_twice_witness :
    exampleLog.Named
    ∧ currentFs.files exampleLog.m_eventFileName = some "event text"
    ∧ ∃ log1 fs1 log2 fs3,
        exampleLog.backup 2 currentFs = some (1, log1, fs1)
        ∧ log1.backup 2 (log1.write fs1 "later event text" "later message text")
            = some (2, log2, fs3)
        ∧ fs3.files exampleLog.m_eventFileName = some ""
        ∧ fs3.files (exampleLog.backupEventName 1) = some "event text"
        ∧ fs3.files (exampleLog.backupEventName 2) = some "later event text" :=
  ⟨exampleLog_named, rfl,
    (backup_twice exampleLog currentFs 2 "event text" "message text" "later event text"
      "later message text" exampleLog_named (le_refl 2) currentFs_no_backup rfl (fun _ => rfl)
      rfl (fun _ => rfl)).imp
      (fun _ h1 => h1.imp (fun _ h2 => h2.imp (fun _ h3 => h3.imp (fun _ h =>
        ⟨h.1, h.2.2.2.1, h.2.2.2.2.1, h.2.2.2.2.2.2.1, h.2.2.2.2.2.2.2.1⟩))))⟩

/-! ## The calls, case by case -/

theorem createSession_flag_error (w : World) (s : SessionID) (a : Ptr) (e : ConfigError)
    (h : readLogMessages (w.factory.m_settings.getFor s) = .error e) :
    FileLogFactory.createSession s a w = (.error e, w) := by
  unfold FileLogFactory.createSession
  simp only [h]

theorem new_shape (w : World) (a : Ptr) (ctor : FileSys → Except ConfigError FileLog × FileSys) :
    (∃ e w1, w.new a ctor = (.error e, w1) ∧ w1.factory = w.factory ∧ w1.heap = w.heap)
    ∨ (∃ w1, w.new a ctor = (.ok a, w1) ∧ w1.factory = w.factory
        ∧ (w1.heap a).isSome = true ∧ ∀ q, q ≠ a → w1.heap q = w.heap q) := by
  rcases h : w.new a ctor with ⟨r, w1⟩
  cases r with
  | error e =>
    left
    exact ⟨e, w1, rfl, new_error _ _ _ _ _ h⟩
  | ok p =>
    right
    obtain ⟨h1, h2, h3, h4⟩ := new_ok _ _ _ _ _ h
    subst h1
    exact ⟨w1, rfl, h2, h3, h4⟩

theorem createSession_shape (s : SessionID) (a : Ptr) (w : World) :
    (∃ e w1, FileLogFactory.createSession s a w = (.error e, w1)
        ∧ w1.factory = w.factory ∧ w1.heap = w.heap)
    ∨ (∃ w1, FileLogFactory.createSession s a w = (.ok a, w1) ∧ w1.factory = w.factory
        ∧ (w1.heap a).isSome = true ∧ ∀ q, q ≠ a → w1.heap q = w.heap q) := by
  unfold FileLogFactory.createSession
  dsimp only
  cases readLogMessages (w.factory.m_settings.getFor s) with
  | error e => exact Or.inl ⟨e, w, rfl, rfl, rfl⟩
  | ok logMessages =>
    dsimp only
    split
    · exact new_shape _ _ _
    · split
      · exact new_shape _ _ _
      · cases (w.factory.m_settings.getFor s).getString FILE_LOG_PATH with
        | error e => exact Or.inl ⟨e, w, rfl, rfl, rfl⟩
        | ok path =>
          dsimp only
          cases readBackupPath (w.factory.m_settings.getFor s) path with
          | error e => exact Or.inl ⟨e, w, rfl, rfl, rfl⟩
          | ok backupPath => exact new_shape _ _ _

theorem createTry_shape (a : Ptr) (w : World) :
    (∃ e w1, FileLogFactory.createTry a w = (.error e, w1)
        ∧ w1.factory = w.factory ∧ w1.heap = w.heap)
    ∨ (∃ w1, FileLogFactory.createTry a w = (.ok a, w1)
        ∧ w1.factory.m_globalLogCount = w.factory.m_globalLogCount
        ∧ (w1.factory.m_globalLog = w.factory.m_globalLog ∨ w1.factory.m_globalLog = a)
        ∧ (w1.heap a).isSome = true ∧ ∀ q, q ≠ a → w1.heap q = w.heap q) := by
  unfold FileLogFactory.createTry
  dsimp only
  cases readLogMessages w.factory.m_settings.get with
  | error e => exact Or.inl ⟨e, w, rfl, rfl, rfl⟩
  | ok logMessages =>
    dsimp only
    split
    · rcases new_shape w a (FileLog.ofPath w.factory.m_path logMessages) with
        ⟨e, w1, h1, h2, h3⟩ | ⟨w1, h1, h2, h3, h4⟩
      · exact Or.inl ⟨e, w1, h1, h2, h3⟩
      · exact Or.inr ⟨w1, h1, by rw [h2], Or.inl (by rw [h2]), h3, h4⟩
    · cases w.factory.m_settings.get.getString FILE_LOG_PATH with
      | error e => exact Or.inl ⟨e, w, rfl, rfl, rfl⟩
      | ok path =>
        dsimp only
        cases readBackupPath w.factory.m_settings.get path with
        | error e => exact Or.inl ⟨e, w, rfl, rfl, rfl⟩
        | ok backupPath =>
          dsimp only
          rcases new_shape w a (FileLog.ofPaths path backupPath logMessages) with
            ⟨e, w1, h1, h2, h3⟩ | ⟨w1, h1, h2, h3, h4⟩
          · rw [h1]
            exact Or.inl ⟨e, w1, rfl, h2, h3⟩
          · rw [h1]
            exact Or.inr ⟨w1.setGlobalLog a, rfl, by simp [World.setGlobalLog, h2],
              Or.inr rfl, h3, h4⟩

theorem create_shared (a : Ptr) (w : World) (h : 1 ≤ w.factory.m_globalLogCount) :
    FileLogFactory.create a w
      = (.ok w.factory.m_globalLog, w.setCount (w.factory.m_globalLogCount + 1)) := by
  unfold FileLogFactory.create
  dsimp only
  rw [if_pos (by simp only [World.setCount]; omega)]
  rfl

theorem create_shape (a : Ptr) (w : World) :
    (1 ≤ w.factory.m_globalLogCount ∧
      FileLogFactory.create a w
        = (.ok w.factory.m_globalLog, w.setCount (w.factory.m_globalLogCount + 1)))
    ∨ (w.factory.m_globalLogCount < 1 ∧
        ∃ e w1, FileLogFactory.create a w = (.error e, w1)
          ∧ w1.factory = w.factory ∧ w1.heap = w.heap)
    ∨ (w.factory.m_globalLogCount < 1 ∧
        ∃ w1, FileLogFactory.create a w = (.ok a, w1)
          ∧ w1.factory.m_globalLogCount = w.factory.m_globalLogCount + 1
          ∧ (w1.factory.m_globalLog = w.factory.m_globalLog ∨ w1.factory.m_globalLog = a)
          ∧ (w1.heap a).isSome = true ∧ ∀ q, q ≠ a → w1.heap q = w.heap q) := by
  by_cases h : 1 ≤ w.factory.m_globalLogCount
  · exact Or.inl ⟨h, create_shared a w h⟩
  · right
    have hlt : w.factory.m_globalLogCount < 1 := by omega
    unfold FileLogFactory.create
    dsimp only
    rw [if_neg (by simp only [World.setCount]; omega)]
    rcases createTry_shape a (w.setCount (w.factory.m_globalLogCount + 1)) with
      ⟨e, w1, h1, h2, h3⟩ | ⟨w1, h1, h2, h3, h4, h5⟩
    · left
      rw [h1]
      refine ⟨hlt, e, _, rfl, ?_, ?_⟩
      · cases w with
        | mk f hp fs =>
          cases f
          simp only [World.setCount] at h2 ⊢
          rw [h2]
          simp
      · simpa [World.setCount] using h3
    · right
      rw [h1]
      exact ⟨hlt, w1, rfl, by simpa [World.setCount] using h2,
        by simpa [World.setCount] using h3, h4, by simpa [World.setCount] using h5⟩

theorem delete_factory (w : World) (p : Ptr) : (w.delete p).factory = w.factory := by
  unfold World.delete
  split <;> rfl

theorem delete_other (w : World) (p q : Ptr) (h : q ≠ p) : (w.delete p).heap q = w.heap q := by
  unfold World.delete
  split
  · rfl
  · simp [Function.update, h]

/-! ## create(): which first call stores the shared pointer -/

theorem createTry_fixed_path (a p : Ptr) (w w1 : World) (hp : w.factory.m_path ≠ "")
    (h : FileLogFactory.createTry a w = (.ok p, w1)) :
    p = a ∧ w1.factory = w.factory := by
  have hp1 : w.factory.m_path.length ≠ 0 := fun h0 => hp ((length_eq_zero_iff _).mp h0)
  unfold FileLogFactory.createTry at h
  dsimp only at h
  cases hlm : readLogMessages w.factory.m_settings.get with
  | error e1 =>
    rw [hlm] at h
    simp at h
  | ok logMessages =>
    rw [hlm] at h
    dsimp only at h
    rw [if_pos hp1] at h
    obtain ⟨h1, h2, -, -⟩ := new_ok _ _ _ _ _ h
    exact ⟨h1, h2⟩

theorem createTry_settings_path (a p : Ptr) (w w1 : World) (hp : w.factory.m_path = "")
    (h : FileLogFactory.createTry a w = (.ok p, w1)) :
    p = a ∧ w1.factory.m_globalLog = a := by
  have hp1 : ¬ (w.factory.m_path.length ≠ 0) := by
    rw [hp]
    intro h0
    exact h0 rfl
  unfold FileLogFactory.createTry at h
  dsimp only at h
  cases hlm : readLogMessages w.factory.m_settings.get with
  | error e1 =>
    rw [hlm] at h
    simp at h
  | ok logMessages =>
    rw [hlm] at h
    dsimp only at h
    rw [if_neg hp1] at h
    cases hpath : w.factory.m_settings.get.getString FILE_LOG_PATH with
    | error e1 =>
      rw [hpath] at h
      simp at h
    | ok path =>
      rw [hpath] at h
      dsimp only at h
      cases hb : readBackupPath w.factory.m_settings.get path with
      | error e1 =>
        rw [hb] at h
        simp at h
      | ok backupPath =>
        rw [hb] at h
        dsimp only at h
        rcases hnew : w.new a (FileLog.ofPaths path backupPath logMessages) with ⟨r, w2⟩
        rw [hnew] at h
        cases r with
        | error e1 => simp at h
        | ok q =>
          simp only [Prod.mk.injEq, Except.ok.injEq] at h
          obtain ⟨h1, h2⟩ := h
          subst h1 h2
          obtain ⟨h1, -, -, -⟩ := new_ok _ _ _ _ _ hnew
          exact ⟨h1, by rw [← h1]; rfl⟩

/-- With a fixed primary path, a first `create()` that succeeds returns the new
object and leaves the stored pointer as it was; every `create()` that follows
returns that stored pointer. -/
theorem create_fixed_path_not_stored (a p : Ptr) (w w1 : World)
    (h0 : w.factory.m_globalLogCount = 0) (hp : w.factory.m_path ≠ "")
    (h : FileLogFactory.create a w = (.ok p, w1)) :
    p = a ∧ w1.factory.m_globalLog = w.factory.m_globalLog
      ∧ w1.factory.m_globalLogCount = 1
      ∧ ∀ a2, FileLogFactory.create a2 w1 = (.ok w.factory.m_globalLog, w1.setCount 2) := by
  rw [create_of_count_zero a w h0] at h
  split at h
  · rename_i q w2 htry
    simp only [Prod.mk.injEq, Except.ok.injEq] at h
    obtain ⟨h1, h2⟩ := h
    subst h1 h2
    obtain ⟨t1, t2⟩ := createTry_fixed_path _ _ _ _ (by exact hp) htry
    have hg : w2.factory.m_globalLog = w.factory.m_globalLog := by rw [t2]; rfl
    have hc : w2.factory.m_globalLogCount = 1 := by rw [t2]; rfl
    refine ⟨t1, hg, hc, ?_⟩
    intro a2
    rw [create_shared a2 w2 (by rw [hc]), hg, hc]
    rfl
  · simp at h

/-- Without a fixed primary path, a first `create()` that succeeds stores the
new object; every `create()` that follows returns it. -/
theorem create_settings_path_stored (a p : Ptr) (w w1 : World)
    (h0 : w.factory.m_globalLogCount = 0) (hp : w.factory.m_path = "")
    (h : FileLogFactory.create a w = (.ok p, w1)) :
    p = a ∧ w1.factory.m_globalLog = p
      ∧ w1.factory.m_globalLogCount = 1
      ∧ ∀ a2, FileLogFactory.create a2 w1 = (.ok p, w1.setCount 2) := by
  rw [create_of_count_zero a w h0] at h
  split at h
  · rename_i q w2 htry
    simp only [Prod.mk.injEq, Except.ok.injEq] at h
    obtain ⟨h1, h2⟩ := h
    subst h1 h2
    obtain ⟨t1, t2⟩ := createTry_settings_path _ _ _ _ (by exact hp) htry
    obtain ⟨-, -, t3⟩ := createTry_ok _ _ _ _ htry
    have hc : w2.factory.m_globalLogCount = 1 := by rw [t3]; rfl
    refine ⟨t1, by rw [t2, t1], hc, ?_⟩
    intro a2
    rw [create_shared a2 w2 (by rw [hc]), t2, hc, t1]
    rfl
  · simp at h

/-! ## The count is never negative while the stored address is not reused -/

theorem inv_congr (w w1 : World) (held : List Ptr) (hf : w1.factory = w.factory)
    (hh : w1.heap = w.heap) (hinv : Client.Inv ⟨w, held⟩) : Client.Inv ⟨w1, held⟩ := by
  unfold Client.Inv at hinv ⊢
  dsimp only at hinv ⊢
  rw [hf, hh]
  exact hinv

theorem inv_create_shared (w : World) (held : List Ptr) (hinv : Client.Inv ⟨w, held⟩) :
    Client.Inv ⟨w.setCount (w.factory.m_globalLogCount + 1), w.factory.m_globalLog :: held⟩ := by
  obtain ⟨i1, i2, i3⟩ := hinv
  dsimp only at i1 i2 i3
  refine ⟨?_, ?_, ?_⟩
  · simp only [World.setCount, List.count_cons_self]
    push_cast
    omega
  · intro p hp
    simp only [World.setCount, List.mem_cons] at hp ⊢
    rcases hp with hp | hp
    · exact Or.inr (Or.inl hp)
    · exact i2 p hp
  · intro p h0 hg
    simp only [World.setCount] at hg ⊢
    rw [List.count_cons_of_ne hg]
    exact i3 p h0 hg

theorem not_held_of_dead (w : World) (held : List Ptr) (a : Ptr) (hinv : Client.Inv ⟨w, held⟩)
    (ha0 : a ≠ 0) (hag : a ≠ w.factory.m_globalLog) (hdead : ¬ (w.heap a).isSome = true) :
    a ∉ held := by
  intro hmem
  rcases hinv.2.1 a hmem with h | h | h
  · exact ha0 h
  · exact hag h
  · exact hdead h

theorem inv_fresh_keep (w w1 : World) (held : List Ptr) (a : Ptr)
    (hinv : Client.Inv ⟨w, held⟩)
    (ha0 : a ≠ 0) (hag : a ≠ w.factory.m_globalLog) (hdead : ¬ (w.heap a).isSome = true)
    (hg : w1.factory.m_globalLog = w.factory.m_globalLog)
    (hc : w.factory.m_globalLogCount ≤ w1.factory.m_globalLogCount)
    (hlive : (w1.heap a).isSome = true) (hframe : ∀ q, q ≠ a → w1.heap q = w.heap q) :
    Client.Inv ⟨w1, a :: held⟩ := by
  have hnot := not_held_of_dead w held a hinv ha0 hag hdead
  obtain ⟨i1, i2, i3⟩ := hinv
  dsimp only at i1 i2 i3
  refine ⟨?_, ?_, ?_⟩
  · dsimp only
    rw [hg, List.count_cons_of_ne (Ne.symm hag)]
    omega
  · intro p hp
    dsimp only at hp ⊢
    rw [hg]
    rcases List.mem_cons.mp hp with hp | hp
    · rw [hp]
      exact Or.inr (Or.inr hlive)
    · rcases i2 p hp with h | h | h
      · exact Or.inl h
      · exact Or.inr (Or.inl h)
      · have hpa : p ≠ a := fun h1 => hnot (h1 ▸ hp)
        rw [hframe p hpa]
        exact Or.inr (Or.inr h)
  · intro p h0 hpg
    dsimp only at hpg ⊢
    rw [hg] at hpg
    by_cases hpa : p = a
    · rw [hpa, List.count_cons_self, List.count_eq_zero_of_not_mem hnot]
    · rw [List.count_cons_of_ne hpa]
      exact i3 p h0 hpg

theorem inv_fresh_store (w w1 : World) (held : List Ptr) (a : Ptr)
    (hinv : Client.Inv ⟨w, held⟩)
    (ha0 : a ≠ 0) (hag : a ≠ w.factory.m_globalLog) (hdead : ¬ (w.heap a).isSome = true)
    (hlt : w.factory.m_globalLogCount < 1)
    (hg : w1.factory.m_globalLog = a)
    (hc : w1.factory.m_globalLogCount = w.factory.m_globalLogCount + 1)
    (hframe : ∀ q, q ≠ a → w1.heap q = w.heap q) :
    Client.Inv ⟨w1, a :: held⟩ := by
  have hnot := not_held_of_dead w held a hinv ha0 hag hdead
  obtain ⟨i1, i2, i3⟩ := hinv
  dsimp only at i1 i2 i3
  have hzero : held.count w.factory.m_globalLog = 0 := by omega
  have hgnot : w.factory.m_globalLog ∉ held := List.count_eq_zero.mp hzero
  refine ⟨?_, ?_, ?_⟩
  · dsimp only
    rw [hg, hc, List.count_cons_self, List.count_eq_zero_of_not_mem hnot]
    push_cast
    omega
  · intro p hp
    dsimp only at hp ⊢
    rw [hg]
    rcases List.mem_cons.mp hp with hp | hp
    · exact Or.inr (Or.inl hp)
    · have hpa : p ≠ a := fun h1 => hnot (h1 ▸ hp)
      rcases i2 p hp with h | h | h
      · exact Or.inl h
      · exact absurd (h ▸ hp) hgnot
      · rw [hframe p hpa]
        exact Or.inr (Or.inr h)
  · intro p h0 hpg
    dsimp only at hpg ⊢
    rw [hg] at hpg
    rw [List.count_cons_of_ne hpg]
    by_cases hpo : p = w.factory.m_globalLog
    · rw [hpo, hzero]
      omega
    · exact i3 p h0 hpo

theorem inv_destroy (w : World) (held : List Ptr) (p : Ptr) (hinv : Client.Inv ⟨w, held⟩)
    (hp : p ∈ held) : Client.Inv ⟨FileLogFactory.destroy p w, held.erase p⟩ := by
  obtain ⟨i1, i2, i3⟩ := hinv
  dsimp only at i1 i2 i3
  have hsub : ∀ q, (held.erase p).count q ≤ held.count q :=
    fun q => (List.erase_sublist p held).count_le q
  by_cases hpg : p = w.factory.m_globalLog
  · subst hpg
    have hpos : 1 ≤ held.count w.factory.m_globalLog := List.one_le_count_iff.mpr hp
    refine ⟨?_, ?_, ?_⟩
    · dsimp only
      rw [destroy_globalLog, destroy_global_count, List.count_erase_self]
      omega
    · intro q hq
      dsimp only at hq ⊢
      rw [destroy_globalLog]
      by_cases hqg : q = w.factory.m_globalLog
      · exact Or.inr (Or.inl hqg)
      · rcases i2 q (List.mem_of_mem_erase hq) with h | h | h
        · exact Or.inl h
        · exact absurd h hqg
        · right
          right
          by_cases hz : w.factory.m_globalLogCount - 1 = 0
          · unfold FileLogFactory.destroy
            rw [if_pos rfl]
            dsimp only
            rw [if_pos (by simpa [World.setCount] using hz)]
            have h1 : ((World.setCount w (w.factory.m_globalLogCount - 1)).delete
                w.factory.m_globalLog).heap q = w.heap q := by
              rw [delete_other _ _ _ hqg]
              rfl
            simp only [World.setCount] at h1 ⊢
            rw [h1]
            exact h
          · rw [destroy_global_heap_keep w hz]
            exact h
    · intro q h0 hqg
      dsimp only at hqg ⊢
      rw [destroy_globalLog] at hqg
      exact le_trans (hsub q) (i3 q h0 hqg)
  · rw [destroy_other p w hpg]
    refine ⟨?_, ?_, ?_⟩
    · dsimp only
      rw [delete_factory, List.count_erase_of_ne (Ne.symm hpg)]
      exact i1
    · intro q hq
      dsimp only at hq ⊢
      rw [delete_factory]
      rcases i2 q (List.mem_of_mem_erase hq) with h | h | h
      · exact Or.inl h
      · exact Or.inr (Or.inl h)
      · by_cases hq0 : q = 0
        · exact Or.inl hq0
        · by_cases hqg : q = w.factory.m_globalLog
          · exact Or.inr (Or.inl hqg)
          · right
            right
            have hqp : q ≠ p := by
              intro heq
              subst heq
              have h1 : 1 ≤ (held.erase q).count q := List.one_le_count_iff.mpr hq
              rw [List.count_erase_self] at h1
              have h2 := i3 q hq0 hqg
              omega
            rw [delete_other _ _ _ hqp]
            exact h
    · intro q h0 hqg
      dsimp only at hqg ⊢
      rw [delete_factory] at hqg
      exact le_trans (hsub q) (i3 q h0 hqg)

theorem step_inv (c : Call) (st st1 : Client) (hinv : st.Inv) (hav : c.avoidsStored st)
    (hstep : c.step st = some st1) : st1.Inv := by
  obtain ⟨w, held⟩ := st
  cases c with
  | create a =>
    simp only [Call.avoidsStored] at hav
    simp only [Call.step] at hstep
    split at hstep
    · simp at hstep
    · rename_i hadm
      simp only [not_or] at hadm
      obtain ⟨ha0, hdead⟩ := hadm
      rcases create_shape a w with ⟨-, h⟩ | ⟨-, e, w1, h, hf, hh⟩ | ⟨hlt, w1, h, hc, hg, hl, hfr⟩
      · rw [h] at hstep
        simp only [Option.some.injEq] at hstep
        subst hstep
        exact inv_create_shared w held hinv
      · rw [h] at hstep
        simp only [Option.some.injEq] at hstep
        subst hstep
        exact inv_congr w w1 held hf hh hinv
      · rw [h] at hstep
        simp only [Option.some.injEq] at hstep
        subst hstep
        rcases hg with hg | hg
        · exact inv_fresh_keep w w1 held a hinv ha0 hav hdead hg (by omega) hl hfr
        · exact inv_fresh_store w w1 held a hinv ha0 hav hdead hlt hg hc hfr
  | createSession s a =>
    simp only [Call.avoidsStored] at hav
    simp only [Call.step] at hstep
    split at hstep
    · simp at hstep
    · rename_i hadm
      simp only [not_or] at hadm
      obtain ⟨ha0, hdead⟩ := hadm
      rcases createSession_shape s a w with ⟨e, w1, h, hf, hh⟩ | ⟨w1, h, hf, hl, hfr⟩
      · rw [h] at hstep
        simp only [Option.some.injEq] at hstep
        subst hstep
        exact inv_congr w w1 held hf hh hinv
      · rw [h] at hstep
        simp only [Option.some.injEq] at hstep
        subst hstep
        exact inv_fresh_keep w w1 held a hinv ha0 hav hdead (by rw [hf]) (by rw [hf]) hl hfr
  | destroy p =>
    simp only [Call.step] at hstep
    split at hstep
    · rename_i hp
      simp only [Option.some.injEq] at hstep
      subst hstep
      exact inv_destroy w held p hinv hp
    · simp at hstep

theorem reachable_inv (w0 : World) (st : Client) (h0 : 0 ≤ w0.factory.m_globalLogCount)
    (h : ReachableWithoutReuse w0 st) : st.Inv := by
  induction h with
  | start => exact ⟨by simpa using h0, by simp, by simp⟩
  | call c st st1 _ hav hstep ih => exact step_inv c st st1 ih hav hstep

/-- The count stays non-negative in every state reached from an initial state
by calls in which every `destroy` is given a held value and no `create` call is
handed the address stored in `m_globalLog`. -/
theorem count_nonneg_without_reuse (path backupPath : String) (settings : SessionSettings)
    (fs : FileSys) (st : Client)
    (h : ReachableWithoutReuse (World.initial path backupPath settings fs) st) :
    0 ≤ st.world.factory.m_globalLogCount := by
  have hinv := reachable_inv _ st (le_refl 0) h
  have h1 := hinv.1
  omega

/-! ## create( const SessionID& ): the flag and the constructor arguments -/

theorem readLogMessages_absent (settings : Dictionary)
    (h : settings.has FILE_LOG_LOG_MESSAGES = false) : readLogMessages settings = .ok true := by
  unfold readLogMessages
  rw [h]
  rfl

theorem readLogMessages_present (settings : Dictionary)
    (h : settings.has FILE_LOG_LOG_MESSAGES = true) :
    readLogMessages settings = settings.getBool FILE_LOG_LOG_MESSAGES := by
  unfold readLogMessages
  rw [h]
  rfl

/-- C6 (as stated, refuted): with both overrides set (`logs`, `backup`) and the
per-session message-logging entry `maybe`, `create(s)` fails with the
configuration error of the flag and leaves the state as it was; it is not the
construction from (`logs`, `backup`) with either value of the flag, which in
this file system succeeds. -/
theorem createSession_malformed_flag_counterexample :
    FileLogFactory.createSession exampleSession 1
        (World.initial "logs" "backup" malformedSettings exampleFs)
      = (.error ⟨"Illegal value maybe for FileLogLogMessages"⟩,
          World.initial "logs" "backup" malformedSettings exampleFs)
    ∧ ((World.initial "logs" "backup" malformedSettings exampleFs).new 1
        (FileLog.init true "logs" "backup" (FileLog.generatePrefix exampleSession))).1 = .ok 1
    ∧ ((World.initial "logs" "backup" malformedSettings exampleFs).new 1
        (FileLog.init false "logs" "backup" (FileLog.generatePrefix exampleSession))).1 = .ok 1
    ∧ FileLogFactory.createSession exampleSession 1
        (World.initial "logs" "backup" malformedSettings exampleFs)
      ≠ (World.initial "logs" "backup" malformedSettings exampleFs).new 1
          (FileLog.init true "logs" "backup" (FileLog.generatePrefix exampleSession))
    ∧ FileLogFactory.createSession exampleSession 1
        (World.initial "logs" "backup" malformedSettings exampleFs)
      ≠ (World.initial "logs" "backup" malformedSettings exampleFs).new 1
          (FileLog.init false "logs" "backup" (FileLog.generatePrefix exampleSession)) := by
  have e0 : (FileLogFactory.createSession exampleSession 1
      (World.initial "logs" "backup" malformedSettings exampleFs)).1
      = .error ⟨"Illegal value maybe for FileLogLogMessages"⟩ := rfl
  have e1 : ((World.initial "logs" "backup" malformedSettings exampleFs).new 1
      (FileLog.init true "logs" "backup" (FileLog.generatePrefix exampleSession))).1
      = .ok 1 := rfl
  have e2 : ((World.initial "logs" "backup" malformedSettings exampleFs).new 1
      (FileLog.init false "logs" "backup" (FileLog.generatePrefix exampleSession))).1
      = .ok 1 := rfl
  refine ⟨rfl, e1, e2, ?_, ?_⟩
  · intro h
    have h1 := congrArg Prod.fst h
    rw [e0, e1] at h1
    cases h1
  · intro h
    have h1 := congrArg Prod.fst h
    rw [e0, e2] at h1
    cases h1

/-- C6 (amended): for every factory configuration and per-session settings,
`create(s)` first reads the message-logging flag.  When the key is present and
`getBool` rejects its value, the call fails with that configuration error and
constructs nothing.  Otherwise, with `logMessages` being `true` when the key is
absent and the value `getBool` returns when it is present, the `FileLog` is
constructed from (fixed primary, fixed backup) when both overrides are
non-empty, from (fixed primary, fixed primary) when only the primary override
is non-empty, and otherwise from the settings log path and the settings log
backup path (the log path again when that key is absent); without overrides and
without the log path key the call fails with a configuration error. -/
theorem createSession_resolution (w : World) (s : SessionID) (a : Ptr) :
    (∀ e, (w.factory.m_settings.getFor s).has FILE_LOG_LOG_MESSAGES = true →
        (w.factory.m_settings.getFor s).getBool FILE_LOG_LOG_MESSAGES = .error e →
        FileLogFactory.createSession s a w = (.error e, w))
    ∧ (∀ logMessages,
        (((w.factory.m_settings.getFor s).has FILE_LOG_LOG_MESSAGES = false
            ∧ logMessages = true)
          ∨ ((w.factory.m_settings.getFor s).has FILE_LOG_LOG_MESSAGES = true
            ∧ (w.factory.m_settings.getFor s).getBool FILE_LOG_LOG_MESSAGES
                = .ok logMessages)) →
        (w.factory.m_path ≠ "" → w.factory.m_backupPath ≠ "" →
          FileLogFactory.createSession s a w =
            w.new a (FileLog.init logMessages w.factory.m_path w.factory.m_backupPath
                      (FileLog.generatePrefix s)))
        ∧ (w.factory.m_path ≠ "" → w.factory.m_backupPath = "" →
          FileLogFactory.createSession s a w =
            w.new a (FileLog.init logMessages w.factory.m_path w.factory.m_path
                      (FileLog.generatePrefix s)))
        ∧ (w.factory.m_path = "" → ∀ path,
          (w.factory.m_settings.getFor s).data FILE_LOG_PATH = some path →
          FileLogFactory.createSession s a w =
            w.new a (FileLog.init logMessages path
                      (((w.factory.m_settings.getFor s).data FILE_LOG_BACKUP_PATH).getD path)
                      (FileLog.generatePrefix s)))
        ∧ (w.factory.m_path = "" →
          (w.factory.m_settings.getFor s).has FILE_LOG_PATH = false →
          ∃ e, FileLogFactory.createSession s a w = (.error e, w))) := by
  constructor
  · intro e hhas hget
    apply createSession_flag_error
    rw [readLogMessages_present _ hhas, hget]
  · intro logMessages hflag
    apply createSession_of_flag
    rcases hflag with ⟨hhas, hlm⟩ | ⟨hhas, hget⟩
    · rw [readLogMessages_absent _ hhas, hlm]
    · rw [readLogMessages_present _ hhas, hget]

/-- Witness for C6 (amended): without overrides, with the log path `logs` and the
flag entry `N`, `create(s)` constructs the log from (`logs`, `logs`) with
message-logging disabled; with the entry absent it does so with message-logging
enabled; with the entry `maybe` and both overrides set it fails. -/
theorem createSession_resolution_witness :
    FileLogFactory.createSession exampleSession 1 (World.initial "" "" quietSettings exampleFs)
        = (World.initial "" "" quietSettings exampleFs).new 1
            (FileLog.init false "logs" "logs" (FileLog.generatePrefix exampleSession))
    ∧ FileLogFactory.createSession exampleSession 1
          (World.initial "" "" exampleSettings exampleFs)
        = (World.initial "" "" exampleSettings exampleFs).new 1
            (FileLog.init true "logs" "logs" (FileLog.generatePrefix exampleSession))
    ∧ FileLogFactory.createSession exampleSession 1
          (World.initial "logs" "backup" malformedSettings exampleFs)
        = (.error ⟨"Illegal value maybe for FileLogLogMessages"⟩,
            World.initial "logs" "backup" malformedSettings exampleFs) :=
  ⟨((createSession_resolution (World.initial "" "" quietSettings exampleFs) exampleSession
      1).2 false (Or.inr ⟨rfl, rfl⟩)).2.2.1 rfl "logs" rfl,
    ((createSession_resolution (World.initial "" "" exampleSettings exampleFs) exampleSession
      1).2 true (Or.inl ⟨rfl, rfl⟩)).2.2.1 rfl "logs" rfl,
    (createSession_resolution (World.initial "logs" "backup" malformedSettings exampleFs)
      exampleSession 1).1 _ rfl rfl⟩

end FIX
